import Mathlib

/-!
Verification development for the Bbannotate annotation store and export engine.

The Python sources under `src/` are embedded shallowly:

* JSON documents (`json.load` results) become the inductive `Json`, with numbers
  as rationals.
* The annotation store's on-disk state (`images/` and `annotations/`) becomes
  `StoreState`: a list of image filenames plus an association list from metadata
  file stem to file content.  A file whose bytes are not valid JSON is
  `FileContent.notJson`.
* Pydantic models (`src/models/annotations.py`) become plain structures; their
  field validation is performed by the decoders (`model_validate`) and the
  range predicates below.  The `Annotation` model is named `Annot` here,
  `AnnotationCreate` is `AnnotCreate` and `AnnotationUpdate` is `AnnotUpdate`.
* Service methods of `AnnotationService`, `ExportService` and `ProjectService`
  become functions over these states.  Filesystem faults other than the
  modelled ones are out of scope; fallible operations return `Except Unit`.
* External image decoding (PIL) is abstracted as an optional dimension pair
  handed to `uploadImage` / `addAnnot`.
-/

namespace Bbannotate

/-- JSON values as produced by `json.load`; numbers are modelled as rationals. -/
inductive Json where
  | null
  | bool (b : Bool)
  | num (q : ℚ)
  | str (s : String)
  | arr (elems : List Json)
  | obj (fields : List (String × Json))
deriving Repr

/-- Content of one file on disk: either a parsed JSON document or bytes that
`json.load` rejects. -/
inductive FileContent where
  | json (j : Json)
  | notJson
deriving Repr

/-- Embeds `BoundingBox` from `src/models/annotations.py`: normalized
center-based box.  The `ge=0, le=1` field constraints are checked by
`decodeBoundingBox` and `BBoxInRange`, not by the structure itself. -/
structure BoundingBox where
  x : ℚ
  y : ℚ
  width : ℚ
  height : ℚ
deriving Repr, DecidableEq

/-- Embeds the `Annotation` pydantic model (id, label, class_id, bbox). -/
structure Annot where
  id : String
  label : String
  class_id : ℕ
  bbox : BoundingBox
deriving Repr, DecidableEq

/-- Embeds `AnnotationCreate` (label, class_id, bbox). -/
structure AnnotCreate where
  label : String
  class_id : ℕ
  bbox : BoundingBox
deriving Repr, DecidableEq

/-- Embeds `AnnotationUpdate`: every field optional. -/
structure AnnotUpdate where
  label : Option String
  class_id : Option ℕ
  bbox : Option BoundingBox
deriving Repr, DecidableEq

/-- Embeds `ImageInfo` (filename, width, height). -/
structure ImageInfo where
  filename : String
  width : ℤ
  height : ℤ
deriving Repr, DecidableEq

/-- Embeds `ImageMetadata` (image, annotations, done). -/
structure ImageMetadata where
  image : ImageInfo
  annotations : List Annot
  done : Bool
deriving Repr, DecidableEq

/-- The pydantic range constraints on a bounding box (each field in [0,1]). -/
def BBoxInRange (b : BoundingBox) : Prop :=
  (0 ≤ b.x ∧ b.x ≤ 1) ∧ (0 ≤ b.y ∧ b.y ≤ 1) ∧
    (0 ≤ b.width ∧ b.width ≤ 1) ∧ (0 ≤ b.height ∧ b.height ≤ 1)

instance (b : BoundingBox) : Decidable (BBoxInRange b) := by
  unfold BBoxInRange
  exact inferInstance

/-- A metadata record all of whose boxes satisfy the pydantic range
constraints; every record produced through the service's validated entry
points has this property. -/
def MetaValid (m : ImageMetadata) : Prop :=
  ∀ a ∈ m.annotations, BBoxInRange a.bbox

instance (m : ImageMetadata) : Decidable (MetaValid m) := by
  unfold MetaValid
  exact List.decidableBAll _ _

/-! ### JSON encoding (`model_dump`) and decoding (`model_validate`) -/

/-- Encoding of a bounding box by `model_dump`. -/
def encodeBoundingBox (b : BoundingBox) : Json :=
  Json.obj [("x", Json.num b.x), ("y", Json.num b.y),
    ("width", Json.num b.width), ("height", Json.num b.height)]

/-- Encoding of an annotation by `model_dump`. -/
def encodeAnnot (a : Annot) : Json :=
  Json.obj [("id", Json.str a.id), ("label", Json.str a.label),
    ("class_id", Json.num (a.class_id : ℚ)), ("bbox", encodeBoundingBox a.bbox)]

/-- Encoding of an `ImageInfo` by `model_dump`. -/
def encodeImageInfo (i : ImageInfo) : Json :=
  Json.obj [("filename", Json.str i.filename), ("width", Json.num (i.width : ℚ)),
    ("height", Json.num (i.height : ℚ))]

/-- Encoding of an `ImageMetadata` by `model_dump`; this is what
`_save_metadata` writes to `annotations/{stem}.json`. -/
def encodeMetadata (m : ImageMetadata) : Json :=
  Json.obj [("image", encodeImageInfo m.image),
    ("annotations", Json.arr (m.annotations.map encodeAnnot)),
    ("done", Json.bool m.done)]

/-- Field lookup in a JSON object (Python `dict` access). -/
def jfield : List (String × Json) → String → Option Json
  | [], _ => none
  | (k, v) :: rest, key => if k = key then some v else jfield rest key

/-- Decode a pydantic `float` field constrained to `ge=0, le=1`. -/
def decodeQ01 : Json → Option ℚ
  | Json.num q => if 0 ≤ q ∧ q ≤ 1 then some q else none
  | _ => none

/-- Decode a pydantic `int` field constrained to `ge=0`. -/
def decodeNat : Json → Option ℕ
  | Json.num q => if q.den = 1 ∧ 0 ≤ q.num then some q.num.toNat else none
  | _ => none

/-- Decode an unconstrained pydantic `int` field. -/
def decodeInt : Json → Option ℤ
  | Json.num q => if q.den = 1 then some q.num else none
  | _ => none

/-- Decode a pydantic `str` field. -/
def decodeStr : Json → Option String
  | Json.str s => some s
  | _ => none

/-- Validation of a `BoundingBox` (`BoundingBox.model_validate`). -/
def decodeBoundingBox : Json → Option BoundingBox
  | Json.obj fields => do
      let x ← (jfield fields "x").bind decodeQ01
      let y ← (jfield fields "y").bind decodeQ01
      let w ← (jfield fields "width").bind decodeQ01
      let h ← (jfield fields "height").bind decodeQ01
      some { x := x, y := y, width := w, height := h }
  | _ => none

/-- Validation of an `Annotation` (`Annotation.model_validate`). -/
def decodeAnnot : Json → Option Annot
  | Json.obj fields => do
      let i ← (jfield fields "id").bind decodeStr
      let l ← (jfield fields "label").bind decodeStr
      let c ← (jfield fields "class_id").bind decodeNat
      let b ← (jfield fields "bbox").bind decodeBoundingBox
      some { id := i, label := l, class_id := c, bbox := b }
  | _ => none

/-- Validation of a list of annotations. -/
def decodeAnnList : List Json → Option (List Annot)
  | [] => some []
  | j :: rest => do
      let a ← decodeAnnot j
      let l ← decodeAnnList rest
      some (a :: l)

/-- Validation of an `ImageInfo`. -/
def decodeImageInfo : Json → Option ImageInfo
  | Json.obj fields => do
      let f ← (jfield fields "filename").bind decodeStr
      let w ← (jfield fields "width").bind decodeInt
      let h ← (jfield fields "height").bind decodeInt
      some { filename := f, width := w, height := h }
  | _ => none

/-- Validation of an `ImageMetadata` (`ImageMetadata.model_validate`):
`image` is required, `annotations` defaults to the empty list, `done`
defaults to `false`. -/
def decodeMetadata : Json → Option ImageMetadata
  | Json.obj fields => do
      let img ← (jfield fields "image").bind decodeImageInfo
      let anns ←
        match jfield fields "annotations" with
        | none => some []
        | some (Json.arr js) => decodeAnnList js
        | some _ => none
      let doneFlag ←
        match jfield fields "done" with
        | none => some false
        | some (Json.bool b) => some b
        | some _ => none
      some { image := img, annotations := anns, done := doneFlag }
  | _ => none

/-! ### String helpers: `Path.stem`, `Path.suffix`, `Path.name`, sorting -/

/-- First index of a character in a list. -/
def idxOfChar : List Char → Char → Option ℕ
  | [], _ => none
  | a :: rest, c => if a = c then some 0 else (idxOfChar rest c).map (· + 1)

/-- Splits a filename into `Path.stem` and `Path.suffix` (split at the last
dot, unless the dot is the first or the last character). -/
def splitExt (s : String) : String × String :=
  match idxOfChar s.data.reverse '.' with
  | none => (s, "")
  | some ridx =>
      let pos := s.data.length - 1 - ridx
      if ridx = 0 ∨ pos = 0 then (s, "")
      else (⟨s.data.take pos⟩, ⟨s.data.drop pos⟩)

/-- `Path(s).stem`. -/
def stemOf (s : String) : String := (splitExt s).1

/-- `Path(s).suffix`. -/
def extOf (s : String) : String := (splitExt s).2

/-- `Path(s).name`: the component after the last slash (`sanitize_filename`
in `src/utils.py` returns exactly this). -/
def baseName (s : String) : String :=
  match idxOfChar s.data.reverse '/' with
  | none => s
  | some ridx => ⟨s.data.drop (s.data.length - ridx)⟩

/-- Embeds `sanitize_filename` from `src/utils.py`. -/
def sanitizeFilename (filename : String) : String := baseName filename

/-- Lexicographic comparison of character lists by code point, as Python
compares strings. -/
def charListLt : List Char → List Char → Bool
  | [], [] => false
  | [], _ :: _ => true
  | _ :: _, [] => false
  | a :: as, b :: bs =>
      if a.toNat < b.toNat then true
      else if b.toNat < a.toNat then false
      else charListLt as bs

/-- Python string `<`. -/
def strLtB (a b : String) : Bool := charListLt a.data b.data

/-- Insert into an ascending list (implementation of `sorted`). -/
def insSorted (x : String) : List String → List String
  | [] => [x]
  | y :: ys => if strLtB y x then y :: insSorted x ys else x :: y :: ys

/-- Python `sorted` on strings. -/
def sortStr (l : List String) : List String := l.foldr insSorted []

/-- Insert into an ascending duplicate-free list. -/
def insSortedDedup (x : String) : List String → List String
  | [] => [x]
  | y :: ys =>
      if strLtB y x then y :: insSortedDedup x ys
      else if x = y then y :: ys
      else x :: y :: ys

/-- Python `sorted(set(l))` on strings. -/
def sortedDedup (l : List String) : List String := l.foldr insSortedDedup []

/-- First index of an element in a list (`list.index`, as an option). -/
def idxOf? (l : List String) (x : String) : Option ℕ :=
  match l with
  | [] => none
  | y :: ys => if y = x then some 0 else (idxOf? ys x).map (· + 1)

/-- Python `list.index`; in every use below the element is present (labels
are looked up in the list they were collected from). -/
def pyIndex (l : List String) (x : String) : ℕ := (idxOf? l x).getD l.length

/-! ### The annotation store state and its primitive operations -/

/-- On-disk state owned by one `AnnotationService` instance: the filenames
directly under `images/` and the contents of `annotations/{stem}.json`
keyed by stem. -/
structure StoreState where
  images : List String
  annFiles : List (String × FileContent)
deriving Repr

/-- Overwrite-or-create a metadata file (a whole-file JSON write). -/
def setKey : List (String × FileContent) → String → FileContent →
    List (String × FileContent)
  | [], k, v => [(k, v)]
  | (k0, v0) :: rest, k, v =>
      if k0 = k then (k, v) :: rest else (k0, v0) :: setKey rest k v

/-- Association-list lookup by key (a file-by-name read). -/
def alookup {α : Type} : List (String × α) → String → Option α
  | [], _ => none
  | (k, v) :: rest, key => if k = key then some v else alookup rest key

/-- Embeds `AnnotationService._load_metadata`: `ok none` when the file does
not exist, an error when it exists but cannot be parsed or validated. -/
def loadMetadata (st : StoreState) (imageFilename : String) :
    Except Unit (Option ImageMetadata) :=
  match alookup st.annFiles (stemOf imageFilename) with
  | none => Except.ok none
  | some FileContent.notJson => Except.error ()
  | some (FileContent.json j) =>
      match decodeMetadata j with
      | some m => Except.ok (some m)
      | none => Except.error ()

/-- Embeds `AnnotationService._save_metadata`. -/
def saveMetadata (st : StoreState) (m : ImageMetadata) : StoreState :=
  { st with
    annFiles := setKey st.annFiles (stemOf m.image.filename)
      (FileContent.json (encodeMetadata m)) }

/-- The five allow-listed image extensions. -/
def allowedExts : List String := [".jpg", ".jpeg", ".png", ".webp", ".bmp"]

/-- Python `str.lower` (ASCII case folding suffices here). -/
def lowerStr (s : String) : String := ⟨s.data.map Char.toLower⟩

/-- Whether a directory entry counts as an image file (case-insensitive
extension check). -/
def isImageFile (s : String) : Bool :=
  decide (lowerStr (extOf s) ∈ allowedExts)

/-- Embeds `AnnotationService.list_images`: sorted filenames under `images/`
with an allow-listed extension. -/
def listImages (st : StoreState) : List String :=
  sortStr (st.images.filter isImageFile)

/-- Embeds `AnnotationService.get_image_path` (existence check only). -/
def getImagePath (st : StoreState) (filename : String) : Option String :=
  if filename ∈ st.images then some filename else none

/-- Embeds `AnnotationService.get_annotations`: empty list when there is no
metadata record, an error when the record cannot be loaded. -/
def getAnnotations (st : StoreState) (imageFilename : String) :
    Except Unit (List Annot) :=
  match loadMetadata st imageFilename with
  | Except.error e => Except.error e
  | Except.ok none => Except.ok []
  | Except.ok (some m) => Except.ok m.annotations

/-- Candidate name `f"{stem}_{counter}{suffix}"` used in the upload
collision loop. -/
def candName (stem suffix : String) (k : ℕ) : String :=
  stem ++ "_" ++ Nat.repr k ++ suffix

/-- The upload collision loop (`while image_path.exists(): ...`), embedded
with fuel; `none` is the fuel-exhaustion artifact, unreachable for the fuel
used by `resolveUploadName`. -/
def findFreeName (files : List String) (stem suffix : String) :
    ℕ → ℕ → Option String
  | 0, _ => none
  | Nat.succ fuel, k =>
      if candName stem suffix k ∈ files then
        findFreeName files stem suffix fuel (k + 1)
      else some (candName stem suffix k)

/-- Duplicate-filename resolution in `upload_image`. -/
def resolveUploadName (existing : List String) (safeFilename : String) :
    Option String :=
  if safeFilename ∈ existing then
    findFreeName existing (stemOf safeFilename) (extOf safeFilename)
      (existing.length + 1) 1
  else some safeFilename

/-- Result of `upload_image`; `fuelOut` is the fuel-exhaustion artifact of
the embedded collision loop. -/
inductive UploadResult where
  | invalidImage
  | fuelOut
  | done (st : StoreState) (info : ImageInfo)
deriving Repr

/-- Embeds `AnnotationService.upload_image`.  `dims` is the outcome of PIL
decoding of the uploaded bytes: `none` when the payload is not a valid
image (the `ValueError` branch), otherwise the extracted dimensions. -/
def uploadImage (st : StoreState) (filename : String) (dims : Option (ℤ × ℤ)) :
    UploadResult :=
  match dims with
  | none => UploadResult.invalidImage
  | some (w, h) =>
      let safe := sanitizeFilename filename
      match resolveUploadName st.images safe with
      | none => UploadResult.fuelOut
      | some resolved =>
          let st1 : StoreState := { st with images := st.images ++ [resolved] }
          let info : ImageInfo := { filename := resolved, width := w, height := h }
          let md : ImageMetadata := { image := info, annotations := [], done := false }
          UploadResult.done (saveMetadata st1 md) info

/-- Embeds `AnnotationService.mark_image_done`. -/
def markImageDone (st : StoreState) (filename : String) (doneFlag : Bool) :
    Except Unit (StoreState × Bool) :=
  match loadMetadata st filename with
  | Except.error e => Except.error e
  | Except.ok none => Except.ok (st, false)
  | Except.ok (some m) =>
      Except.ok (saveMetadata st { m with done := doneFlag }, true)

/-- Embeds `AnnotationService.add_annotation`.  `newId` is the generated
UUID; `lazyDims` is the dimension pair PIL reads in the lazy-materialization
branch (metadata missing but image file present). -/
def addAnnot (st : StoreState) (imageFilename : String) (newId : String)
    (lazyDims : ℤ × ℤ) (create : AnnotCreate) :
    Except Unit (StoreState × Annot) :=
  match loadMetadata st imageFilename with
  | Except.error e => Except.error e
  | Except.ok mOpt =>
      match mOpt with
      | none =>
          if imageFilename ∈ st.images then
            let info : ImageInfo :=
              { filename := imageFilename, width := lazyDims.1, height := lazyDims.2 }
            let m : ImageMetadata := { image := info, annotations := [], done := false }
            let newAnn : Annot :=
              { id := newId, label := create.label, class_id := create.class_id,
                bbox := create.bbox }
            let m' : ImageMetadata := { m with annotations := m.annotations ++ [newAnn] }
            Except.ok (saveMetadata st m', newAnn)
          else Except.error ()
      | some m =>
          let newAnn : Annot :=
            { id := newId, label := create.label, class_id := create.class_id,
              bbox := create.bbox }
          let m' : ImageMetadata := { m with annotations := m.annotations ++ [newAnn] }
          Except.ok (saveMetadata st m', newAnn)

/-- The merge step of `update_annotation`: `model_dump` of the existing
record updated with the non-`None` fields of the patch. -/
def applyUpdate (a : Annot) (u : AnnotUpdate) : Annot :=
  { id := a.id, label := u.label.getD a.label,
    class_id := u.class_id.getD a.class_id, bbox := u.bbox.getD a.bbox }

/-- The in-place replace loop of `update_annotation`: first annotation with
a matching id is replaced, the rest is untouched. -/
def updateAnnList (annId : String) (u : AnnotUpdate) :
    List Annot → Option (List Annot × Annot)
  | [] => none
  | a :: rest =>
      if a.id = annId then
        let a' := applyUpdate a u
        some (a' :: rest, a')
      else
        match updateAnnList annId u rest with
        | none => none
        | some (rest', res) => some (a :: rest', res)

/-- Embeds `AnnotationService.update_annotation`. -/
def updateAnnot (st : StoreState) (imageFilename annId : String)
    (u : AnnotUpdate) : Except Unit (StoreState × Option Annot) :=
  match loadMetadata st imageFilename with
  | Except.error e => Except.error e
  | Except.ok none => Except.ok (st, none)
  | Except.ok (some m) =>
      match updateAnnList annId u m.annotations with
      | none => Except.ok (st, none)
      | some (anns', res) =>
          Except.ok (saveMetadata st { m with annotations := anns' }, some res)

/-- The copy constructed for one source annotation in `copy_annotations`:
same label, class_id and bbox, fresh id. -/
def annCopy (a : Annot) (i : String) : Annot :=
  { id := i, label := a.label, class_id := a.class_id, bbox := a.bbox }

/-- Embeds `AnnotationService.copy_annotations`.  `newIds` supplies the
freshly generated UUIDs, one per source annotation. -/
def copyAnnotations (st : StoreState) (srcFilename tgtFilename : String)
    (newIds : List String) : Except Unit (StoreState × ℕ) :=
  match loadMetadata st srcFilename with
  | Except.error e => Except.error e
  | Except.ok none => Except.ok (st, 0)
  | Except.ok (some sm) =>
      match loadMetadata st tgtFilename with
      | Except.error e => Except.error e
      | Except.ok none => Except.ok (st, 0)
      | Except.ok (some tm) =>
          let copies := List.zipWith annCopy sm.annotations newIds
          let tm' : ImageMetadata := { tm with annotations := tm.annotations ++ copies }
          Except.ok (saveMetadata st tm', copies.length)

/-! ### Aggregate scans of the annotation store -/

/-- One step of the `get_project_info` scan: load and validate a metadata
file (`json.load` + `model_validate`, both raising on failure). -/
def loadAnnFile : FileContent → Except Unit ImageMetadata
  | FileContent.notJson => Except.error ()
  | FileContent.json j =>
      match decodeMetadata j with
      | some m => Except.ok m
      | none => Except.error ()

/-- Embeds `ProjectInfo` from `src/models/annotations.py` (name field left
at its default and omitted). -/
structure ProjInfo where
  labels : List String
  image_count : ℕ
  annotation_count : ℕ
  annotated_image_count : ℕ
  done_image_count : ℕ
deriving Repr, DecidableEq

/-- The accumulation loop of `get_project_info` over the `*.json` files. -/
def projInfoScan : List (String × FileContent) →
    Except Unit (List String × ℕ × ℕ × ℕ × ℕ)
  | [] => Except.ok ([], 0, 0, 0, 0)
  | (_, c) :: rest =>
      match loadAnnFile c with
      | Except.error e => Except.error e
      | Except.ok m =>
          match projInfoScan rest with
          | Except.error e => Except.error e
          | Except.ok (ls, ic, ac, aic, dic) =>
              Except.ok (m.annotations.map (fun a => a.label) ++ ls,
                ic + 1, ac + m.annotations.length,
                (if m.annotations.length > 0 then aic + 1 else aic),
                (if m.done then dic + 1 else dic))

/-- Embeds `AnnotationService.get_project_info`. -/
def getProjectInfo (st : StoreState) : Except Unit ProjInfo :=
  match projInfoScan st.annFiles with
  | Except.error e => Except.error e
  | Except.ok (ls, ic, ac, aic, dic) =>
      Except.ok
        { labels := sortedDedup ls
          image_count := ic
          annotation_count := ac
          annotated_image_count := aic
          done_image_count := dic }

/-- The scan loop of `get_all_done_status`: one entry per metadata file,
keyed by the filename recorded inside the file. -/
def doneStatusScan : List (String × FileContent) →
    Except Unit (List (String × Bool))
  | [] => Except.ok []
  | (_, c) :: rest =>
      match loadAnnFile c, doneStatusScan rest with
      | Except.error e, _ => Except.error e
      | Except.ok _, Except.error e => Except.error e
      | Except.ok m, Except.ok l => Except.ok ((m.image.filename, m.done) :: l)

/-- Embeds `AnnotationService.get_all_done_status`. -/
def getAllDoneStatus (st : StoreState) : Except Unit (List (String × Bool)) :=
  doneStatusScan st.annFiles

/-! ### Export engine (`src/services/export_service.py`) -/

/-- The label-collection loop of `ExportService._get_all_labels`. -/
def collectLabels (st : StoreState) : List String → Except Unit (List String)
  | [] => Except.ok []
  | f :: fs =>
      match getAnnotations st f with
      | Except.error e => Except.error e
      | Except.ok anns =>
          match collectLabels st fs with
          | Except.error e => Except.error e
          | Except.ok rest => Except.ok (anns.map (fun a => a.label) ++ rest)

/-- Embeds `ExportService._get_all_labels`: sorted distinct labels across
every image. -/
def getAllLabels (st : StoreState) : Except Unit (List String) :=
  match collectLabels st (listImages st) with
  | Except.error e => Except.error e
  | Except.ok ls => Except.ok (sortedDedup ls)

/-- Python `int()` truncation toward zero on a rational. -/
def ratTrunc (q : ℚ) : ℤ := if 0 ≤ q then ⌊q⌋ else ⌈q⌉

/-- Python list-slice index semantics: negative indices count from the end,
and the result is clamped to `[0, n]`. -/
def pySliceIdx (n : ℕ) (k : ℤ) : ℕ :=
  if k < 0 then ((n : ℤ) + k).toNat else min k.toNat n

/-- One YOLO label-file line, kept structured:
`(class_id, x, y, width, height)`. -/
abbrev YoloLine : Type := ℕ × ℚ × ℚ × ℚ × ℚ

/-- Result of `export_yolo`, abstracted from the filesystem: the image files
copied into each split, the label files written for each split, and the
lines of `data.yaml`. -/
structure YoloOut where
  trainFiles : List String
  valFiles : List String
  trainLabelFiles : List (String × List YoloLine)
  valLabelFiles : List (String × List YoloLine)
  yamlLines : List String
deriving Repr

/-- Embeds `ExportService._export_yolo_image` for one filename: `none` when
the image file is missing (the early-return branch), otherwise the label
file `{stem}.txt` as structured lines. -/
def exportYoloImage (st : StoreState) (labels : List String) (filename : String) :
    Except Unit (Option (String × List YoloLine)) :=
  match getImagePath st filename with
  | none => Except.ok none
  | some _ =>
      match getAnnotations st filename with
      | Except.error e => Except.error e
      | Except.ok anns =>
          Except.ok (some (stemOf filename,
            anns.map (fun a =>
              ((idxOf? labels a.label).getD a.class_id,
                a.bbox.x, a.bbox.y, a.bbox.width, a.bbox.height))))

/-- The per-split loop of `export_yolo`: returns the filenames whose image
files were copied and the label files written. -/
def exportYoloSet (st : StoreState) (labels : List String) :
    List String → Except Unit (List String × List (String × List YoloLine))
  | [] => Except.ok ([], [])
  | f :: fs =>
      match exportYoloImage st labels f with
      | Except.error e => Except.error e
      | Except.ok none => exportYoloSet st labels fs
      | Except.ok (some lf) =>
          match exportYoloSet st labels fs with
          | Except.error e => Except.error e
          | Except.ok (copied, lfs) => Except.ok (f :: copied, lf :: lfs)

/-- Embeds `ExportService._create_yolo_yaml`.  `outputAbs` is the string
`output_dir.absolute()` interpolates to. -/
def createYoloYaml (outputAbs : String) (labels : List String) : List String :=
  ["path: " ++ outputAbs, "train: train/images", "val: val/images", "",
    "nc: " ++ Nat.repr labels.length, "names:"] ++
    labels.enum.map (fun p => "  " ++ Nat.repr p.1 ++ ": " ++ p.2)

/-- Embeds `ExportService.export_yolo` (signature
`export_yolo(self, output_dir, train_split=0.8)`). -/
def exportYolo (st : StoreState) (trainSplit : ℚ) (outputAbs : String) :
    Except Unit YoloOut :=
  let images := listImages st
  let splitIdx := pySliceIdx images.length (ratTrunc ((images.length : ℚ) * trainSplit))
  let trainFs := images.take splitIdx
  let valFs := images.drop splitIdx
  match getAllLabels st with
  | Except.error e => Except.error e
  | Except.ok labels =>
      match exportYoloSet st labels trainFs with
      | Except.error e => Except.error e
      | Except.ok (trainCopied, trainLfs) =>
          match exportYoloSet st labels valFs with
          | Except.error e => Except.error e
          | Except.ok (valCopied, valLfs) =>
              Except.ok
                { trainFiles := trainCopied
                  valFiles := valCopied
                  trainLabelFiles := trainLfs
                  valLabelFiles := valLfs
                  yamlLines := createYoloYaml outputAbs labels }

/-- One image entry of the COCO document. -/
structure CocoImageOut where
  id : ℕ
  file_name : String
  width : ℤ
  height : ℤ
deriving Repr, DecidableEq

/-- One annotation entry of the COCO document (`bbox` is
`[x_min, y_min, width_px, height_px]`, unclamped). -/
structure CocoAnnOut where
  id : ℕ
  image_id : ℕ
  category_id : ℕ
  bbox : List ℚ
  area : ℚ
  iscrowd : ℕ
deriving Repr, DecidableEq

/-- The COCO document produced by `export_coco`. -/
structure CocoOut where
  images : List CocoImageOut
  annotations : List CocoAnnOut
  categories : List (ℕ × String × String)
deriving Repr, DecidableEq

/-- The per-image loop of `export_coco`; the first argument after `labels`
is the running `annotation_id` counter (starting at 1). -/
def cocoScan (st : StoreState) (labels : List String) :
    ℕ → List (ℕ × String) → Except Unit (List CocoImageOut × List CocoAnnOut)
  | _, [] => Except.ok ([], [])
  | nextAnnId, (imgId, filename) :: rest =>
      match getAnnotations st filename with
      | Except.error e => Except.error e
      | Except.ok anns =>
          match loadMetadata st filename with
          | Except.error e => Except.error e
          | Except.ok none => cocoScan st labels nextAnnId rest
          | Except.ok (some md) =>
              let newAnns := anns.enum.map (fun p =>
                let a := p.2
                let widthPx := a.bbox.width * (md.image.width : ℚ)
                let heightPx := a.bbox.height * (md.image.height : ℚ)
                let xMin := (a.bbox.x - a.bbox.width / 2) * (md.image.width : ℚ)
                let yMin := (a.bbox.y - a.bbox.height / 2) * (md.image.height : ℚ)
                ({ id := nextAnnId + p.1
                   image_id := imgId
                   category_id := pyIndex labels a.label
                   bbox := [xMin, yMin, widthPx, heightPx]
                   area := widthPx * heightPx
                   iscrowd := 0 } : CocoAnnOut))
              match cocoScan st labels (nextAnnId + anns.length) rest with
              | Except.error e => Except.error e
              | Except.ok (imgs, annsRest) =>
                  Except.ok
                    (({ id := imgId
                        file_name := filename
                        width := md.image.width
                        height := md.image.height } : CocoImageOut) :: imgs,
                      newAnns ++ annsRest)

/-- Embeds `ExportService.export_coco`. -/
def exportCoco (st : StoreState) : Except Unit CocoOut :=
  match getAllLabels st with
  | Except.error e => Except.error e
  | Except.ok labels =>
      match cocoScan st labels 1 (listImages st).enum with
      | Except.error e => Except.error e
      | Except.ok (imgs, anns) =>
          Except.ok
            { images := imgs
              annotations := anns
              categories := labels.enum.map (fun p => (p.1, p.2, "product")) }

/-- One `<object>` element of a Pascal VOC document (clamped integer
corners). -/
structure VocObjOut where
  name : String
  xmin : ℤ
  ymin : ℤ
  xmax : ℤ
  ymax : ℤ
deriving Repr, DecidableEq

/-- One Pascal VOC XML document. -/
structure VocDocOut where
  filename : String
  width : ℤ
  height : ℤ
  objects : List VocObjOut
deriving Repr, DecidableEq

/-- The per-image loop of `export_pascal_voc`. -/
def vocScan (st : StoreState) : List String → Except Unit (List VocDocOut)
  | [] => Except.ok []
  | filename :: rest =>
      match getAnnotations st filename with
      | Except.error e => Except.error e
      | Except.ok anns =>
          match loadMetadata st filename with
          | Except.error e => Except.error e
          | Except.ok none => vocScan st rest
          | Except.ok (some md) =>
              match getImagePath st filename with
              | none => vocScan st rest
              | some _ =>
                  let objs := anns.map (fun a =>
                    let xMin := ratTrunc ((a.bbox.x - a.bbox.width / 2) * (md.image.width : ℚ))
                    let yMin := ratTrunc ((a.bbox.y - a.bbox.height / 2) * (md.image.height : ℚ))
                    let xMax := ratTrunc ((a.bbox.x + a.bbox.width / 2) * (md.image.width : ℚ))
                    let yMax := ratTrunc ((a.bbox.y + a.bbox.height / 2) * (md.image.height : ℚ))
                    ({ name := a.label
                       xmin := max 0 xMin
                       ymin := max 0 yMin
                       xmax := min md.image.width xMax
                       ymax := min md.image.height yMax } : VocObjOut))
                  match vocScan st rest with
                  | Except.error e => Except.error e
                  | Except.ok docs =>
                      Except.ok
                        (({ filename := filename
                            width := md.image.width
                            height := md.image.height
                            objects := objs } : VocDocOut) :: docs)

/-- Embeds `ExportService.export_pascal_voc`. -/
def exportPascalVoc (st : StoreState) : Except Unit (List VocDocOut) :=
  vocScan st (listImages st)

/-- Round half to even on an integer boundary (Python `round`). -/
def rhalfEven (q : ℚ) : ℤ :=
  if q - ⌊q⌋ < 1 / 2 then ⌊q⌋
  else if 1 / 2 < q - ⌊q⌋ then ⌊q⌋ + 1
  else if ⌊q⌋ % 2 = 0 then ⌊q⌋ else ⌊q⌋ + 1

/-- Python `round(q, 2)`. -/
def round2 (q : ℚ) : ℚ := (rhalfEven (q * 100) : ℚ) / 100

/-- One annotation of a CreateML entry: center-based absolute pixels,
rounded to two decimals. -/
structure CMAnnOut where
  label : String
  x : ℚ
  y : ℚ
  width : ℚ
  height : ℚ
deriving Repr, DecidableEq

/-- One image entry of the CreateML document. -/
structure CMEntryOut where
  image : String
  annotations : List CMAnnOut
deriving Repr, DecidableEq

/-- The per-image loop of `export_createml`. -/
def cmScan (st : StoreState) : List String → Except Unit (List CMEntryOut)
  | [] => Except.ok []
  | filename :: rest =>
      match getAnnotations st filename with
      | Except.error e => Except.error e
      | Except.ok anns =>
          match loadMetadata st filename with
          | Except.error e => Except.error e
          | Except.ok none => cmScan st rest
          | Except.ok (some md) =>
              let entryAnns := anns.map (fun a =>
                let widthPx := a.bbox.width * (md.image.width : ℚ)
                let heightPx := a.bbox.height * (md.image.height : ℚ)
                let centerX := a.bbox.x * (md.image.width : ℚ)
                let centerY := a.bbox.y * (md.image.height : ℚ)
                ({ label := a.label
                   x := round2 centerX
                   y := round2 centerY
                   width := round2 widthPx
                   height := round2 heightPx } : CMAnnOut))
              match cmScan st rest with
              | Except.error e => Except.error e
              | Except.ok entries =>
                  Except.ok ({ image := filename, annotations := entryAnns : CMEntryOut } :: entries)

/-- Embeds `ExportService.export_createml`. -/
def exportCreateML (st : StoreState) : Except Unit (List CMEntryOut) :=
  cmScan st (listImages st)

/-- One data row of the CSV export (clamped integer corners plus image
dimensions). -/
structure CsvRowOut where
  filename : String
  label : String
  x_min : ℤ
  y_min : ℤ
  x_max : ℤ
  y_max : ℤ
  image_width : ℤ
  image_height : ℤ
deriving Repr, DecidableEq

/-- The per-image loop of `export_csv`. -/
def csvScan (st : StoreState) : List String → Except Unit (List CsvRowOut)
  | [] => Except.ok []
  | filename :: rest =>
      match getAnnotations st filename with
      | Except.error e => Except.error e
      | Except.ok anns =>
          match loadMetadata st filename with
          | Except.error e => Except.error e
          | Except.ok none => csvScan st rest
          | Except.ok (some md) =>
              let rows := anns.map (fun a =>
                let xMin := ratTrunc ((a.bbox.x - a.bbox.width / 2) * (md.image.width : ℚ))
                let yMin := ratTrunc ((a.bbox.y - a.bbox.height / 2) * (md.image.height : ℚ))
                let xMax := ratTrunc ((a.bbox.x + a.bbox.width / 2) * (md.image.width : ℚ))
                let yMax := ratTrunc ((a.bbox.y + a.bbox.height / 2) * (md.image.height : ℚ))
                ({ filename := filename
                   label := a.label
                   x_min := max 0 xMin
                   y_min := max 0 yMin
                   x_max := min md.image.width xMax
                   y_max := min md.image.height yMax
                   image_width := md.image.width
                   image_height := md.image.height } : CsvRowOut))
              match csvScan st rest with
              | Except.error e => Except.error e
              | Except.ok rest' => Except.ok (rows ++ rest')

/-- Embeds `ExportService.export_csv` (data rows; the header row is
constant). -/
def exportCsv (st : StoreState) : Except Unit (List CsvRowOut) :=
  csvScan st (listImages st)

/-! ### Project service (`src/services/project_service.py`) -/

/-- Embeds the `Project` pydantic model. -/
structure Project where
  id : String
  name : String
  created_at : String
  last_opened : String
  image_count : ℤ
  annotation_count : ℤ
deriving Repr, DecidableEq

/-- Encoding of a `Project` by `model_dump` (what `project.json` holds). -/
def encodeProject (p : Project) : Json :=
  Json.obj [("id", Json.str p.id), ("name", Json.str p.name),
    ("created_at", Json.str p.created_at), ("last_opened", Json.str p.last_opened),
    ("image_count", Json.num (p.image_count : ℚ)),
    ("annotation_count", Json.num (p.annotation_count : ℚ))]

/-- Validation of a `Project` (`Project.model_validate`): the four string
fields are required, the counters default to 0. -/
def decodeProject : Json → Option Project
  | Json.obj fields => do
      let i ← (jfield fields "id").bind decodeStr
      let n ← (jfield fields "name").bind decodeStr
      let ca ← (jfield fields "created_at").bind decodeStr
      let lo ← (jfield fields "last_opened").bind decodeStr
      let ic ←
        match jfield fields "image_count" with
        | none => some 0
        | some j => decodeInt j
      let ac ←
        match jfield fields "annotation_count" with
        | none => some 0
        | some j => decodeInt j
      some { id := i, name := n, created_at := ca, last_opened := lo,
             image_count := ic, annotation_count := ac }
  | _ => none

/-- One project directory under the base directory: optional `project.json`
content, the entries of `images/`, and the `*.json` files of
`annotations/`. -/
structure ProjDir where
  meta : Option FileContent
  images : List String
  annFiles : List (String × FileContent)
deriving Repr

/-- The base directory of the project service: subdirectory name to
contents. -/
def ProjectsState : Type := List (String × ProjDir)

/-- Embeds `ProjectService._load_project_meta`: `ok none` when
`project.json` does not exist (also when the whole directory is missing),
an error when it exists but cannot be parsed or validated. -/
def loadProjectMeta (ps : ProjectsState) (projectId : String) :
    Except Unit (Option Project) :=
  match alookup ps projectId with
  | none => Except.ok none
  | some d =>
      match d.meta with
      | none => Except.ok none
      | some FileContent.notJson => Except.error ()
      | some (FileContent.json j) =>
          match decodeProject j with
          | some p => Except.ok (some p)
          | none => Except.error ()

/-- Python `len(data.get("annotations", []))` on one parsed annotation
file: an error when `data` is not a dict (`.get` missing) or the value has
no `len` (number, bool, null). -/
def annCountOfJson : Json → Except Unit ℕ
  | Json.obj fields =>
      match jfield fields "annotations" with
      | none => Except.ok 0
      | some (Json.arr xs) => Except.ok xs.length
      | some (Json.str s) => Except.ok s.length
      | some (Json.obj fs) => Except.ok fs.length
      | some _ => Except.error ()
  | _ => Except.error ()

/-- The annotation-counting loop of `_count_project_stats` (the `json.load`
of a corrupt file raises). -/
def countAnnScan : List (String × FileContent) → Except Unit ℕ
  | [] => Except.ok 0
  | (_, FileContent.notJson) :: _ => Except.error ()
  | (_, FileContent.json j) :: rest =>
      match annCountOfJson j with
      | Except.error e => Except.error e
      | Except.ok n =>
          match countAnnScan rest with
          | Except.error e => Except.error e
          | Except.ok m => Except.ok (n + m)

/-- Embeds `ProjectService._count_project_stats`: images counted by
allow-listed extension, annotations summed over every `*.json` file; a
missing project directory yields `(0, 0)`. -/
def countProjectStats (ps : ProjectsState) (projectId : String) :
    Except Unit (ℕ × ℕ) :=
  match alookup ps projectId with
  | none => Except.ok (0, 0)
  | some d =>
      match countAnnScan d.annFiles with
      | Except.error e => Except.error e
      | Except.ok ac => Except.ok ((d.images.filter isImageFile).length, ac)

/-- Embeds `ProjectService.get_project`: the stored counters are replaced
by freshly recomputed ones. -/
def getProject (ps : ProjectsState) (projectId : String) :
    Except Unit (Option Project) :=
  match loadProjectMeta ps projectId with
  | Except.error e => Except.error e
  | Except.ok none => Except.ok none
  | Except.ok (some p) =>
      match countProjectStats ps projectId with
      | Except.error e => Except.error e
      | Except.ok (ic, ac) =>
          Except.ok (some { p with image_count := (ic : ℤ), annotation_count := (ac : ℤ) })

/-- The directory loop of `list_projects` (before sorting). -/
def listProjectsScan (ps : ProjectsState) :
    List (String × ProjDir) → Except Unit (List Project)
  | [] => Except.ok []
  | (dirName, _) :: rest =>
      match loadProjectMeta ps dirName with
      | Except.error e => Except.error e
      | Except.ok none => listProjectsScan ps rest
      | Except.ok (some p) =>
          match countProjectStats ps p.id with
          | Except.error e => Except.error e
          | Except.ok (ic, ac) =>
              match listProjectsScan ps rest with
              | Except.error e => Except.error e
              | Except.ok l =>
                  Except.ok
                    (({ p with image_count := (ic : ℤ), annotation_count := (ac : ℤ) }) :: l)

/-- Insertion into a list sorted by `last_opened` descending. -/
def insProjDesc (x : Project) : List Project → List Project
  | [] => [x]
  | y :: ys =>
      if strLtB x.last_opened y.last_opened then y :: insProjDesc x ys
      else x :: y :: ys

/-- The `projects.sort(key=lambda p: p.last_opened, reverse=True)` step. -/
def sortProjDesc (l : List Project) : List Project := l.foldr insProjDesc []

/-- Embeds `ProjectService.list_projects`. -/
def listProjects (ps : ProjectsState) : Except Unit (List Project) :=
  match listProjectsScan ps ps with
  | Except.error e => Except.error e
  | Except.ok l => Except.ok (sortProjDesc l)

/-! ### Derived notions and concrete states used by the verification -/

/-- The annotation built by `add_annotation` / `copy_annotations` from a
request and a generated id. -/
def annOfCreate (p : String × AnnotCreate) : Annot :=
  { id := p.1, label := p.2.label, class_id := p.2.class_id, bbox := p.2.bbox }

/-- A sequence of `add_annotation` calls on one image; each pair supplies
the generated UUID and the validated request. -/
def addMany (st : StoreState) (f : String) :
    List (String × AnnotCreate) → Except Unit StoreState
  | [] => Except.ok st
  | p :: rest =>
      match addAnnot st f p.1 (0, 0) p.2 with
      | Except.error e => Except.error e
      | Except.ok (st', _) => addMany st' f rest

/-- A store whose metadata files are all valid saved records (every file is
well-formed JSON that validates, with in-range boxes). -/
def WFStore (st : StoreState) : Prop :=
  ∀ p ∈ st.annFiles, ∃ m, p.2 = FileContent.json (encodeMetadata m) ∧ MetaValid m

/-- The box of the spec's coordinate-conversion example. -/
def sampleBBox : BoundingBox := { x := 1/2, y := 1/2, width := 1/5, height := 1/5 }

/-- A one-annotation metadata record on a 100×100 image. -/
def doneMeta (name : String) (d : Bool) : ImageMetadata :=
  { image := { filename := name, width := 100, height := 100 }
    annotations := [{ id := "a-" ++ name, label := "product", class_id := 0, bbox := sampleBBox }]
    done := d }

/-- Five uploaded and annotated images of which only the first three are
marked done (the spec's YOLO done-filter scenario). -/
def doneFilterState : StoreState :=
  { images := ["image_000.png", "image_001.png", "image_002.png",
      "image_003.png", "image_004.png"]
    annFiles := [
      ("image_000", FileContent.json (encodeMetadata (doneMeta "image_000.png" true))),
      ("image_001", FileContent.json (encodeMetadata (doneMeta "image_001.png" true))),
      ("image_002", FileContent.json (encodeMetadata (doneMeta "image_002.png" true))),
      ("image_003", FileContent.json (encodeMetadata (doneMeta "image_003.png" false))),
      ("image_004", FileContent.json (encodeMetadata (doneMeta "image_004.png" false)))] }

/-- A store with one healthy image and one whose metadata file holds bytes
`json.load` rejects. -/
def corruptState : StoreState :=
  { images := ["bad.png", "good.png"]
    annFiles := [("bad", FileContent.notJson),
      ("good", FileContent.json (encodeMetadata (doneMeta "good.png" true)))] }

/-- A store with one healthy image and one image file that has no metadata
record at all. -/
def missingState : StoreState :=
  { images := ["good.png", "orphan.png"]
    annFiles := [("good", FileContent.json (encodeMetadata (doneMeta "good.png" true)))] }

/-- A project record whose persisted counters (5 and 7) deliberately
disagree with the on-disk contents. -/
def sampleProject : Project :=
  { id := "p1", name := "P", created_at := "2024-01-01", last_opened := "2024-01-02",
    image_count := 5, annotation_count := 7 }

/-- A project directory whose real contents (1 image, 3 annotations) drift
from the persisted counters of `sampleProject`; the second annotation file
has a legacy shape with only an `annotations` array. -/
def driftDir : ProjDir :=
  { meta := some (FileContent.json (encodeProject sampleProject))
    images := ["a.png", "notes.txt"]
    annFiles := [("a", FileContent.json (encodeMetadata (doneMeta "a.png" false))),
      ("b", FileContent.json (Json.obj [("annotations", Json.arr [Json.null, Json.null])]))] }

/-- A projects base directory holding only the drifted project. -/
def driftProjects : ProjectsState := [("p1", driftDir)]

/-- A project directory with one well-formed saved annotation record. -/
def wfDir : ProjDir :=
  { meta := none
    images := ["a.png"]
    annFiles := [("a", FileContent.json (encodeMetadata (doneMeta "a.png" false)))] }

/-- A projects base directory whose single project has one well-formed
saved annotation record. -/
def wfProj : ProjectsState := [("q", wfDir)]

/-- The project record `get_project` is expected to return for the drifted
project: identity fields preserved, counters recomputed. -/
def driftProj : Project :=
  { id := "p1", name := "P", created_at := "2024-01-01", last_opened := "2024-01-02",
    image_count := 1, annotation_count := 3 }

/-- A projects base directory whose project has a corrupt annotation file. -/
def corruptProjects : ProjectsState :=
  [("p1", { meta := some (FileContent.json (encodeProject sampleProject))
            images := ["a.png"]
            annFiles := [("a", FileContent.notJson)] })]

/-- The empty store. -/
def emptyStore : StoreState := { images := [], annFiles := [] }

/-- Source image metadata for the copy scenario: two annotations. -/
def copySrcMeta : ImageMetadata :=
  { image := { filename := "s.png", width := 10, height := 10 }
    annotations := [{ id := "s1", label := "a", class_id := 0, bbox := sampleBBox },
      { id := "s2", label := "b", class_id := 1, bbox := sampleBBox }]
    done := false }

/-- Target image metadata for the copy scenario: one prior annotation. -/
def copyTgtMeta : ImageMetadata :=
  { image := { filename := "t.png", width := 10, height := 10 }
    annotations := [{ id := "t1", label := "c", class_id := 2, bbox := sampleBBox }]
    done := false }

/-- Store holding the copy scenario's source and target. -/
def copyState : StoreState :=
  { images := ["s.png", "t.png"]
    annFiles := [("s", FileContent.json (encodeMetadata copySrcMeta)),
      ("t", FileContent.json (encodeMetadata copyTgtMeta))] }

/-- The store expected after copying with fresh ids `n1`, `n2`. -/
def copyResult : StoreState :=
  { images := ["s.png", "t.png"]
    annFiles := [("s", FileContent.json (encodeMetadata copySrcMeta)),
      ("t", FileContent.json (encodeMetadata
        { image := { filename := "t.png", width := 10, height := 10 }
          annotations := [{ id := "t1", label := "c", class_id := 2, bbox := sampleBBox },
            { id := "n1", label := "a", class_id := 0, bbox := sampleBBox },
            { id := "n2", label := "b", class_id := 1, bbox := sampleBBox }]
          done := false }))] }

/-- The expected store after uploading `a.png` into the empty store. -/
def upSt1 : StoreState :=
  { images := ["a.png"]
    annFiles := [("a", FileContent.json (encodeMetadata
      { image := { filename := "a.png", width := 10, height := 10 }
        annotations := []
        done := false }))] }

/-- Two annotation-creation requests with generated ids. -/
def upPairs : List (String × AnnotCreate) :=
  [("u1", { label := "x", class_id := 0, bbox := sampleBBox }),
    ("u2", { label := "y", class_id := 1, bbox := sampleBBox })]

/-- The expected store after adding `upPairs` to the uploaded image. -/
def upSt2 : StoreState :=
  { images := ["a.png"]
    annFiles := [("a", FileContent.json (encodeMetadata
      { image := { filename := "a.png", width := 10, height := 10 }
        annotations := [{ id := "u1", label := "x", class_id := 0, bbox := sampleBBox },
          { id := "u2", label := "y", class_id := 1, bbox := sampleBBox }]
        done := false }))] }

/-- A single-image single-annotation store over the given image dimensions,
as produced by one upload and one annotation. -/
def oneImgState (name : String) (w h : ℤ) (a : Annot) : StoreState :=
  { images := [name]
    annFiles := [(stemOf name, FileContent.json (encodeMetadata
      { image := { filename := name, width := w, height := h }
        annotations := [a]
        done := false }))] }

/-- The annotation of the spec's conversion example. -/
def testAnn : Annot := { id := "u1", label := "product", class_id := 0, bbox := sampleBBox }

/-- Metadata with two labels, to exercise the `data.yaml` names block. -/
def yamlMeta : ImageMetadata :=
  { image := { filename := "y.png", width := 100, height := 100 }
    annotations := [{ id := "y1", label := "banana", class_id := 0, bbox := sampleBBox },
      { id := "y2", label := "apple", class_id := 1, bbox := sampleBBox }]
    done := true }

/-- The store for the `data.yaml` scenario. -/
def yamlState : StoreState :=
  { images := ["y.png"]
    annFiles := [("y", FileContent.json (encodeMetadata yamlMeta))] }

/-- The `ImageInfo` returned by the first upload of `a.png`. -/
def upInfoA : ImageInfo := { filename := "a.png", width := 10, height := 10 }

/-- The `ImageInfo` returned by the second upload of `a.png`. -/
def upInfoB : ImageInfo := { filename := "a_1.png", width := 10, height := 10 }

/-- The store expected after uploading `a.png` twice into the empty store. -/
def collSt2 : StoreState :=
  { images := ["a.png", "a_1.png"]
    annFiles := [("a", FileContent.json (encodeMetadata
      { image := upInfoA, annotations := [], done := false })),
      ("a_1", FileContent.json (encodeMetadata
        { image := upInfoB, annotations := [], done := false }))] }

/-- A one-image store used to exercise `update_annotation`. -/
def updState : StoreState :=
  { images := [], annFiles := [("a", FileContent.json (encodeMetadata (doneMeta "a.png" false)))] }

/-- A patch that relabels without touching id, class_id or bbox. -/
def updPatch : AnnotUpdate := { label := some "price", class_id := none, bbox := none }

/-- The annotation expected after applying `updPatch`. -/
def updAnn : Annot := { id := "a-a.png", label := "price", class_id := 0, bbox := sampleBBox }

/-- The store expected after the concrete update. -/
def updState1 : StoreState :=
  { images := []
    annFiles := [("a", FileContent.json (encodeMetadata
      { image := { filename := "a.png", width := 100, height := 100 }
        annotations := [updAnn]
        done := false }))] }

/-! ### Round-trip of the persistence format -/

theorem decode_encode_bbox (b : BoundingBox) (h : BBoxInRange b) :
    decodeBoundingBox (encodeBoundingBox b) = some b := by
  obtain ⟨⟨hx0, hx1⟩, ⟨hy0, hy1⟩, ⟨hw0, hw1⟩, ⟨hh0, hh1⟩⟩ := h
  simp +decide [encodeBoundingBox, decodeBoundingBox, jfield, decodeQ01,
    hx0, hx1, hy0, hy1, hw0, hw1, hh0, hh1]

theorem decode_encode_annot (a : Annot) (h : BBoxInRange a.bbox) :
    decodeAnnot (encodeAnnot a) = some a := by
  simp +decide [encodeAnnot, decodeAnnot, jfield, decodeStr, decodeNat,
    decode_encode_bbox a.bbox h, Rat.num_natCast, Rat.den_natCast, Int.toNat_natCast,
    Int.natCast_nonneg]

theorem decode_encode_annList (l : List Annot) (h : ∀ a ∈ l, BBoxInRange a.bbox) :
    decodeAnnList (l.map encodeAnnot) = some l := by
  induction l with
  | nil => simp [decodeAnnList]
  | cons a rest ih =>
      have ha : BBoxInRange a.bbox := h a (List.mem_cons_self a rest)
      have hrest : ∀ x ∈ rest, BBoxInRange x.bbox :=
        fun x hx => h x (List.mem_cons_of_mem a hx)
      simp [decodeAnnList, decode_encode_annot a ha, ih hrest]

theorem decode_encode_imageInfo (i : ImageInfo) :
    decodeImageInfo (encodeImageInfo i) = some i := by
  simp +decide [encodeImageInfo, decodeImageInfo, jfield, decodeStr, decodeInt,
    Rat.num_intCast, Rat.den_intCast]

theorem decode_encode_metadata (m : ImageMetadata) (h : MetaValid m) :
    decodeMetadata (encodeMetadata m) = some m := by
  simp +decide [encodeMetadata, decodeMetadata, jfield, decode_encode_imageInfo,
    decode_encode_annList m.annotations h]

/-! ### File-map lemmas -/

theorem alookup_setKey_self (l : List (String × FileContent)) (k : String)
    (v : FileContent) : alookup (setKey l k v) k = some v := by
  induction l with
  | nil => simp [setKey, alookup]
  | cons p rest ih =>
      obtain ⟨k0, v0⟩ := p
      by_cases hp : k0 = k
      · simp [setKey, hp, alookup]
      · simp [setKey, hp, alookup, ih]

theorem alookup_setKey_other (l : List (String × FileContent)) (k k' : String)
    (v : FileContent) (h : k' ≠ k) : alookup (setKey l k v) k' = alookup l k' := by
  induction l with
  | nil => simp [setKey, alookup, h.symm]
  | cons p rest ih =>
      obtain ⟨k0, v0⟩ := p
      by_cases hp : k0 = k
      · have hkk : k ≠ k' := h.symm
        have hk0 : k0 ≠ k' := hp ▸ hkk
        simp [setKey, hp, alookup, hk0, hkk]
      · simp [setKey, hp, alookup, ih]

theorem alookup_mem {α : Type} (l : List (String × α)) (k : String) (v : α)
    (h : alookup l k = some v) : (k, v) ∈ l := by
  induction l with
  | nil => simp [alookup] at h
  | cons p rest ih =>
      obtain ⟨k0, v0⟩ := p
      by_cases hp : k0 = k
      · simp [alookup, hp] at h
        simp [hp, h]
      · simp [alookup, hp] at h
        exact List.mem_cons_of_mem _ (ih h)

theorem saveMetadata_images (st : StoreState) (m : ImageMetadata) :
    (saveMetadata st m).images = st.images := rfl

theorem loadMetadata_save_self (st : StoreState) (m : ImageMetadata)
    (hv : MetaValid m) (f : String)
    (hstem : stemOf f = stemOf m.image.filename) :
    loadMetadata (saveMetadata st m) f = Except.ok (some m) := by
  simp [loadMetadata, saveMetadata, hstem, alookup_setKey_self,
    decode_encode_metadata m hv]

theorem loadMetadata_save_other (st : StoreState) (m : ImageMetadata) (f : String)
    (hstem : stemOf f ≠ stemOf m.image.filename) :
    loadMetadata (saveMetadata st m) f = loadMetadata st f := by
  simp [loadMetadata, saveMetadata, alookup_setKey_other _ _ _ _ hstem]

/-! ### C10: updates cannot change an annotation's id -/

theorem updateAnnList_result_id (annId : String) (u : AnnotUpdate) :
    ∀ l l' a, updateAnnList annId u l = some (l', a) → a.id = annId := by
  intro l
  induction l with
  | nil =>
      intro l' a h
      simp [updateAnnList] at h
  | cons x rest ih =>
      intro l' a h
      by_cases hx : x.id = annId
      · simp only [updateAnnList, if_pos hx] at h
        obtain ⟨-, ha⟩ := Prod.mk.injEq .. ▸ (Option.some.injEq .. ▸ h)
        rw [← ha]
        simpa [applyUpdate] using hx
      · simp only [updateAnnList, if_neg hx] at h
        cases hr : updateAnnList annId u rest with
        | none => rw [hr] at h; simp at h
        | some pr =>
            rw [hr] at h
            simp only [Option.some.injEq, Prod.mk.injEq] at h
            obtain ⟨-, ha⟩ := h
            exact ha ▸ ih pr.1 pr.2 hr

/-- C10: `update_annotation` can never change an annotation's id: whenever
the update succeeds and returns an annotation, that annotation's id equals
the targeted `annotation_id` (the patch carries only optional label,
class_id and bbox fields, and the merge applies only those). -/
theorem c10_update_preserves_id (st : StoreState) (f annId : String)
    (u : AnnotUpdate) (st' : StoreState) (a : Annot)
    (h : updateAnnot st f annId u = Except.ok (st', some a)) : a.id = annId := by
  unfold updateAnnot at h
  split at h
  · simp at h
  · simp at h
  · split at h
    · simp at h
    · rename_i anns' res hu
      simp only [Except.ok.injEq, Prod.mk.injEq, Option.some.injEq] at h
      exact h.2 ▸ updateAnnList_result_id annId u _ anns' res hu

/-- C10 witness: a concrete successful update returns the targeted id. -/
theorem c10_update_preserves_id_witness :
    updateAnnot updState "a.png" "a-a.png" updPatch = Except.ok (updState1, some updAnn) ∧
      updAnn.id = "a-a.png" := by
  have h : updateAnnot updState "a.png" "a-a.png" updPatch =
      Except.ok (updState1, some updAnn) := by
    norm_num +decide [updState, updState1, updPatch, updAnn, doneMeta, sampleBBox,
      updateAnnot, loadMetadata, alookup, stemOf, splitExt, idxOfChar, encodeMetadata,
      decodeMetadata, encodeImageInfo, decodeImageInfo, encodeAnnot, decodeAnnot,
      decodeAnnList, encodeBoundingBox, decodeBoundingBox, jfield, decodeStr,
      decodeQ01, decodeNat, decodeInt, updateAnnList, applyUpdate, saveMetadata, setKey]
  exact ⟨h, c10_update_preserves_id updState "a.png" "a-a.png" updPatch updState1 updAnn h⟩

/-! ### C7: copy_annotations -/

theorem mem_zipWith {α β γ : Type} (f : α → β → γ) :
    ∀ (l1 : List α) (l2 : List β) (c : γ), c ∈ List.zipWith f l1 l2 →
      ∃ a, a ∈ l1 ∧ ∃ b, b ∈ l2 ∧ c = f a b := by
  intro l1
  induction l1 with
  | nil =>
      intro l2 c h
      simp at h
  | cons x xs ih =>
      intro l2 c h
      cases l2 with
      | nil => simp at h
      | cons y ys =>
          simp only [List.zipWith_cons_cons, List.mem_cons] at h
          rcases h with h | h
          · exact ⟨x, List.mem_cons_self x xs, y, List.mem_cons_self y ys, h⟩
          · obtain ⟨a, ha, b, hb, hc⟩ := ih ys c h
            exact ⟨a, List.mem_cons_of_mem x ha, b, List.mem_cons_of_mem y hb, hc⟩

/-- C7: `copy_annotations` requires both source and target metadata records
(returning 0 copied and leaving the store unchanged otherwise, never
erroring); when both exist it appends one copy per source annotation to the
target, each copy carrying the same label, class_id and bbox but a freshly
generated id distinct from every source id, preserving the target's prior
annotations. -/
theorem c7_copy_semantics (st : StoreState) (src tgt : String)
    (newIds : List String) :
    (loadMetadata st src = Except.ok none →
      copyAnnotations st src tgt newIds = Except.ok (st, 0)) ∧
    (∀ sm, loadMetadata st src = Except.ok (some sm) →
      loadMetadata st tgt = Except.ok none →
      copyAnnotations st src tgt newIds = Except.ok (st, 0)) ∧
    (∀ sm tm st' n, loadMetadata st src = Except.ok (some sm) →
      loadMetadata st tgt = Except.ok (some tm) →
      MetaValid sm → MetaValid tm →
      stemOf tgt = stemOf tm.image.filename →
      newIds.length = sm.annotations.length →
      (∀ i ∈ newIds, ∀ a ∈ sm.annotations, i ≠ a.id) →
      copyAnnotations st src tgt newIds = Except.ok (st', n) →
      n = sm.annotations.length ∧
      getAnnotations st' tgt = Except.ok (tm.annotations ++
        List.zipWith annCopy sm.annotations newIds) ∧
      (∀ c ∈ List.zipWith annCopy sm.annotations newIds,
        ∀ a ∈ sm.annotations, c.id ≠ a.id)) := by
  refine ⟨?_, ?_, ?_⟩
  · intro h
    simp [copyAnnotations, h]
  · intro sm h1 h2
    simp [copyAnnotations, h1, h2]
  · intro sm tm st' n h1 h2 hvs hvt hstem hlen hfresh hcopy
    unfold copyAnnotations at hcopy
    rw [h1, h2] at hcopy
    simp only [Except.ok.injEq, Prod.mk.injEq] at hcopy
    obtain ⟨hst', hn⟩ := hcopy
    have hcopylen : (List.zipWith annCopy sm.annotations newIds).length =
        sm.annotations.length := by
      rw [List.length_zipWith, ← hlen, min_self]
    constructor
    · rw [← hn, hcopylen]
    constructor
    · have hvt' : MetaValid { tm with annotations := tm.annotations ++ List.zipWith annCopy sm.annotations newIds } := by
        intro a ha
        simp only [List.mem_append] at ha
        rcases ha with ha | ha
        · exact hvt a ha
        · obtain ⟨a0, ha0, i0, _, hc⟩ := mem_zipWith _ _ _ _ ha
          rw [hc]
          exact hvs a0 ha0
      rw [← hst']
      simp [getAnnotations, loadMetadata_save_self _ _ hvt' tgt hstem]
    · intro c hc a ha
      obtain ⟨a0, _, i0, hi0, hceq⟩ := mem_zipWith _ _ _ _ hc
      rw [hceq]
      exact hfresh i0 hi0 a ha

/-- C7 witness: copying two annotations onto a target with one prior
annotation concretely produces fresh-id copies after the preserved
original. -/
theorem c7_copy_semantics_witness :
    2 = copySrcMeta.annotations.length ∧
    getAnnotations copyResult "t.png" = Except.ok (copyTgtMeta.annotations ++
      List.zipWith annCopy copySrcMeta.annotations ["n1", "n2"]) ∧
    (∀ c ∈ List.zipWith annCopy copySrcMeta.annotations ["n1", "n2"],
      ∀ a ∈ copySrcMeta.annotations, c.id ≠ a.id) := by
  have h1 : loadMetadata copyState "s.png" = Except.ok (some copySrcMeta) := by
    norm_num +decide [copyState, copySrcMeta, copyTgtMeta, sampleBBox, loadMetadata,
      alookup, stemOf, splitExt, idxOfChar, encodeMetadata, decodeMetadata,
      encodeImageInfo, decodeImageInfo, encodeAnnot, decodeAnnot, decodeAnnList,
      encodeBoundingBox, decodeBoundingBox, jfield, decodeStr, decodeQ01,
      decodeNat, decodeInt]
  have h2 : loadMetadata copyState "t.png" = Except.ok (some copyTgtMeta) := by
    norm_num +decide [copyState, copySrcMeta, copyTgtMeta, sampleBBox, loadMetadata,
      alookup, stemOf, splitExt, idxOfChar, encodeMetadata, decodeMetadata,
      encodeImageInfo, decodeImageInfo, encodeAnnot, decodeAnnot, decodeAnnList,
      encodeBoundingBox, decodeBoundingBox, jfield, decodeStr, decodeQ01,
      decodeNat, decodeInt]
  have hvs : MetaValid copySrcMeta := by
    norm_num [MetaValid, BBoxInRange, copySrcMeta, sampleBBox]
  have hvt : MetaValid copyTgtMeta := by
    norm_num [MetaValid, BBoxInRange, copyTgtMeta, sampleBBox]
  have hstem : stemOf "t.png" = stemOf copyTgtMeta.image.filename := rfl
  have hlen : (["n1", "n2"] : List String).length = copySrcMeta.annotations.length := rfl
  have hfresh : ∀ i ∈ (["n1", "n2"] : List String),
      ∀ a ∈ copySrcMeta.annotations, i ≠ a.id := by
    intro i hi a ha
    fin_cases hi <;> fin_cases ha <;> simp [copySrcMeta]
  have hcopy : copyAnnotations copyState "s.png" "t.png" ["n1", "n2"] =
      Except.ok (copyResult, 2) := by
    norm_num +decide [copyAnnotations, annCopy, copyState, copyResult,
      copySrcMeta, copyTgtMeta, sampleBBox, saveMetadata, setKey, stemOf, splitExt,
      idxOfChar, loadMetadata, alookup, encodeMetadata, decodeMetadata,
      encodeImageInfo, decodeImageInfo, encodeAnnot, decodeAnnot, decodeAnnList,
      encodeBoundingBox, decodeBoundingBox, jfield, decodeStr, decodeQ01,
      decodeNat, decodeInt, List.zipWith]
  exact (c7_copy_semantics copyState "s.png" "t.png" ["n1", "n2"]).2.2
    copySrcMeta copyTgtMeta copyResult 2 h1 h2 hvs hvt hstem hlen hfresh hcopy

/-! ### C6: persistence round-trip -/

theorem addMany_annotations :
    ∀ (pairs : List (String × AnnotCreate)) (st : StoreState) (f : String)
      (m : ImageMetadata) (st' : StoreState),
      loadMetadata st f = Except.ok (some m) → MetaValid m →
      stemOf f = stemOf m.image.filename →
      (∀ p ∈ pairs, BBoxInRange p.2.bbox) →
      addMany st f pairs = Except.ok st' →
      getAnnotations st' f = Except.ok (m.annotations ++ pairs.map annOfCreate) := by
  intro pairs
  induction pairs with
  | nil =>
      intro st f m st' hload hv hstem hp h
      simp only [addMany, Except.ok.injEq] at h
      subst h
      simp [getAnnotations, hload]
  | cons p rest ih =>
      intro st f m st' hload hv hstem hp h
      simp only [addMany, addAnnot, hload] at h
      set m' : ImageMetadata :=
        { m with annotations := m.annotations ++ [annOfCreate p] } with hm'
      have hv' : MetaValid m' := by
        intro a ha
        simp only [hm', List.mem_append, List.mem_singleton] at ha
        rcases ha with ha | ha
        · exact hv a ha
        · rw [ha]
          exact hp p (List.mem_cons_self p rest)
      have hload' : loadMetadata (saveMetadata st m') f = Except.ok (some m') :=
        loadMetadata_save_self st m' hv' f hstem
      have hrest : ∀ q ∈ rest, BBoxInRange q.2.bbox :=
        fun q hq => hp q (List.mem_cons_of_mem p hq)
      have := ih (saveMetadata st m') f m' st' hload' hv' hstem hrest h
      simpa [hm', List.append_assoc] using this

/-- C6: persistence round-trips.  After an upload, reading the resolved
filename back through `get_annotations` yields the empty sequence; and
after adding N annotations, reading the image from the persisted state (the
state a freshly constructed store instance over the same directory sees,
since construction only ensures the directories exist) yields exactly those
N annotations with identical ids, labels, class_ids and bboxes, in order,
after the previously stored ones. -/
theorem c6_round_trip (st : StoreState) :
    (∀ filename dims st1 info,
      uploadImage st filename dims = UploadResult.done st1 info →
      getAnnotations st1 info.filename = Except.ok []) ∧
    (∀ f m pairs st', loadMetadata st f = Except.ok (some m) → MetaValid m →
      stemOf f = stemOf m.image.filename →
      (∀ p ∈ pairs, BBoxInRange p.2.bbox) →
      addMany st f pairs = Except.ok st' →
      getAnnotations st' f = Except.ok (m.annotations ++ pairs.map annOfCreate)) := by
  constructor
  · intro filename dims st1 info h
    simp only [uploadImage] at h
    split at h
    · simp at h
    · split at h
      · simp at h
      · simp only [UploadResult.done.injEq] at h
        obtain ⟨hst1, hinfo⟩ := h
        rw [← hst1, ← hinfo]
        unfold getAnnotations
        rw [loadMetadata_save_self]
        · exact fun a ha => absurd ha (List.not_mem_nil a)
        · rfl
  · intro f m pairs st' hload hv hstem hp h
    exact addMany_annotations pairs st f m st' hload hv hstem hp h

/-- C6 witness: uploading into the empty store then adding two annotations
concretely round-trips through the persisted JSON. -/
theorem c6_round_trip_witness :
    uploadImage emptyStore "a.png" (some (10, 10)) =
      UploadResult.done upSt1 { filename := "a.png", width := 10, height := 10 } ∧
    getAnnotations upSt1 "a.png" = Except.ok [] ∧
    addMany upSt1 "a.png" upPairs = Except.ok upSt2 ∧
    getAnnotations upSt2 "a.png" =
      Except.ok ([] ++ upPairs.map annOfCreate) := by
  have hup : uploadImage emptyStore "a.png" (some (10, 10)) =
      UploadResult.done upSt1 { filename := "a.png", width := 10, height := 10 } := by
    norm_num +decide [uploadImage, emptyStore, upSt1, sanitizeFilename, baseName,
      idxOfChar, resolveUploadName, findFreeName, candName, stemOf, extOf, splitExt,
      saveMetadata, setKey, encodeMetadata, encodeImageInfo, encodeAnnot,
      encodeBoundingBox]
  have hload : loadMetadata upSt1 "a.png" = Except.ok (some
      { image := { filename := "a.png", width := 10, height := 10 }, annotations := [], done := false }) := by
    norm_num +decide [upSt1, loadMetadata, alookup, stemOf, splitExt, idxOfChar,
      encodeMetadata, decodeMetadata, encodeImageInfo, decodeImageInfo, encodeAnnot,
      decodeAnnot, decodeAnnList, encodeBoundingBox, decodeBoundingBox, jfield,
      decodeStr, decodeQ01, decodeNat, decodeInt]
  have hadd : addMany upSt1 "a.png" upPairs = Except.ok upSt2 := by
    norm_num +decide [addMany, addAnnot, upSt1, upSt2, upPairs, sampleBBox,
      loadMetadata, alookup, stemOf, splitExt, idxOfChar, saveMetadata, setKey,
      encodeMetadata, decodeMetadata, encodeImageInfo, decodeImageInfo, encodeAnnot,
      decodeAnnot, decodeAnnList, encodeBoundingBox, decodeBoundingBox, jfield,
      decodeStr, decodeQ01, decodeNat, decodeInt]
  refine ⟨hup, (c6_round_trip emptyStore).1 "a.png" (some (10, 10)) upSt1 _ hup, hadd, ?_⟩
  refine (c6_round_trip upSt1).2 "a.png" _ upPairs upSt2 hload ?_ rfl ?_ hadd
  · intro a ha
    simp at ha
  · intro p hp
    fin_cases hp <;> norm_num [upPairs, BBoxInRange, sampleBBox]

/-! ### C9: duplicate-filename resolution on upload -/

theorem findFreeName_spec (files : List String) (stem suffix : String) :
    ∀ fuel k r, findFreeName files stem suffix fuel k = some r →
      r ∉ files ∧ ∃ n, k ≤ n ∧ r = candName stem suffix n := by
  intro fuel
  induction fuel with
  | zero =>
      intro k r h
      simp [findFreeName] at h
  | succ fuel ih =>
      intro k r h
      simp only [findFreeName] at h
      by_cases hc : candName stem suffix k ∈ files
      · rw [if_pos hc] at h
        obtain ⟨hnot, n, hkn, hr⟩ := ih (k + 1) r h
        exact ⟨hnot, n, Nat.le_of_succ_le hkn, hr⟩
      · rw [if_neg hc] at h
        have hr : candName stem suffix k = r := by
          simpa using h
        exact ⟨hr ▸ hc, k, Nat.le_refl k, hr.symm⟩

theorem resolveUploadName_spec (existing : List String) (safe r : String)
    (h : resolveUploadName existing safe = some r) :
    r ∉ existing ∧
    (safe ∉ existing → r = safe) ∧
    (safe ∈ existing →
      ∃ n, 1 ≤ n ∧ r = candName (stemOf safe) (extOf safe) n) := by
  unfold resolveUploadName at h
  by_cases hmem : safe ∈ existing
  · rw [if_pos hmem] at h
    obtain ⟨hnot, n, hn, hr⟩ := findFreeName_spec existing (stemOf safe) (extOf safe)
      (existing.length + 1) 1 r h
    exact ⟨hnot, fun hc => absurd hmem hc, fun _ => ⟨n, hn, hr⟩⟩
  · rw [if_neg hmem] at h
    have hr : safe = r := by simpa using h
    exact ⟨hr ▸ hmem, fun _ => hr.symm, fun hc => absurd hc hmem⟩

theorem uploadImage_spec (st : StoreState) (filename : String)
    (dims : Option (ℤ × ℤ)) (st1 : StoreState) (info : ImageInfo)
    (h : uploadImage st filename dims = UploadResult.done st1 info) :
    info.filename ∉ st.images ∧
    st1.images = st.images ++ [info.filename] ∧
    (sanitizeFilename filename ∉ st.images → info.filename = sanitizeFilename filename) ∧
    (sanitizeFilename filename ∈ st.images →
      ∃ n, 1 ≤ n ∧ info.filename = candName (stemOf (sanitizeFilename filename))
        (extOf (sanitizeFilename filename)) n) := by
  simp only [uploadImage] at h
  split at h
  · simp at h
  · split at h
    · simp at h
    · rename_i resolved hres
      simp only [UploadResult.done.injEq] at h
      obtain ⟨hst1, hinfo⟩ := h
      obtain ⟨hnot, hfree, hcoll⟩ := resolveUploadName_spec st.images
        (sanitizeFilename filename) resolved hres
      have hfn : info.filename = resolved := by rw [← hinfo]
      refine ⟨hfn ▸ hnot, ?_, fun hc => hfn ▸ hfree hc, fun hc => ?_⟩
      · rw [← hst1, hfn]
        rfl
      · obtain ⟨n, hn, hr⟩ := hcoll hc
        exact ⟨n, hn, hfn ▸ hr⟩

/-- C9: uploads never overwrite.  A resolved filename is never one of the
already stored files; when the sanitized basename collides, the stored name
follows the `stem_n ext` pattern with `n ≥ 1`; uploading the same basename
twice yields two distinct stored filenames, both retrievable through
`get_image_path`. -/
theorem c9_upload_collision (st : StoreState) (filename : String)
    (dims : Option (ℤ × ℤ)) (st1 st2 : StoreState) (info1 info2 : ImageInfo)
    (h1 : uploadImage st filename dims = UploadResult.done st1 info1)
    (h2 : uploadImage st1 filename dims = UploadResult.done st2 info2) :
    info1.filename ∉ st.images ∧
    info2.filename ∉ st1.images ∧
    info2.filename ≠ info1.filename ∧
    (∃ n, 1 ≤ n ∧ info2.filename = candName (stemOf (sanitizeFilename filename))
      (extOf (sanitizeFilename filename)) n) ∧
    getImagePath st2 info1.filename = some info1.filename ∧
    getImagePath st2 info2.filename = some info2.filename := by
  obtain ⟨hnot1, himg1, hfree1, hcoll1⟩ := uploadImage_spec st filename dims st1 info1 h1
  obtain ⟨hnot2, himg2, hfree2, hcoll2⟩ := uploadImage_spec st1 filename dims st2 info2 h2
  have hmem1 : info1.filename ∈ st1.images := by
    rw [himg1]
    exact List.mem_append_right _ (List.mem_singleton_self _)
  have hne : info2.filename ≠ info1.filename := fun hc => hnot2 (hc ▸ hmem1)
  have hsafe : sanitizeFilename filename ∈ st1.images := by
    by_cases hc : sanitizeFilename filename ∈ st.images
    · rw [himg1]
      exact List.mem_append_left _ hc
    · rw [← hfree1 hc]
      exact hmem1
  have hmem1' : info1.filename ∈ st2.images := by
    rw [himg2]
    exact List.mem_append_left _ hmem1
  have hmem2' : info2.filename ∈ st2.images := by
    rw [himg2]
    exact List.mem_append_right _ (List.mem_singleton_self _)
  refine ⟨hnot1, hnot2, hne, hcoll2 hsafe, ?_, ?_⟩
  · simp [getImagePath, hmem1']
  · simp [getImagePath, hmem2']

/-- C9 witness: uploading `a.png` twice into the empty store stores
`a.png` then `a_1.png`, both retrievable. -/
theorem c9_upload_collision_witness :
    uploadImage emptyStore "a.png" (some (10, 10)) = UploadResult.done upSt1 upInfoA ∧
    uploadImage upSt1 "a.png" (some (10, 10)) = UploadResult.done collSt2 upInfoB ∧
    upInfoB.filename ≠ upInfoA.filename ∧
    (∃ n, 1 ≤ n ∧ upInfoB.filename = candName (stemOf (sanitizeFilename "a.png"))
      (extOf (sanitizeFilename "a.png")) n) ∧
    getImagePath collSt2 upInfoA.filename = some upInfoA.filename ∧
    getImagePath collSt2 upInfoB.filename = some upInfoB.filename := by
  have hupA : uploadImage emptyStore "a.png" (some (10, 10)) =
      UploadResult.done upSt1 upInfoA := by
    norm_num +decide [uploadImage, emptyStore, upSt1, upInfoA, sanitizeFilename,
      baseName, idxOfChar, resolveUploadName, findFreeName, candName, stemOf, extOf,
      splitExt, saveMetadata, setKey, encodeMetadata, encodeImageInfo]
  have hupB : uploadImage upSt1 "a.png" (some (10, 10)) =
      UploadResult.done collSt2 upInfoB := by
    norm_num +decide [uploadImage, upSt1, collSt2, upInfoA, upInfoB, sanitizeFilename,
      baseName, idxOfChar, resolveUploadName, findFreeName, candName, stemOf, extOf,
      splitExt, saveMetadata, setKey, encodeMetadata, encodeImageInfo, Nat.repr,
      Nat.toDigits, Nat.toDigitsCore]
  obtain ⟨-, -, hne, hpat, hget1, hget2⟩ :=
    c9_upload_collision emptyStore "a.png" (some (10, 10)) upSt1 collSt2
      upInfoA upInfoB hupA hupB
  exact ⟨hupA, hupB, hne, hpat, hget1, hget2⟩

/-! ### C1, C2, C4: the YOLO export of this code base -/

theorem mem_insSorted (x y : String) :
    ∀ l : List String, y ∈ insSorted x l ↔ y = x ∨ y ∈ l := by
  intro l
  induction l with
  | nil => simp [insSorted]
  | cons z zs ih =>
      by_cases hz : strLtB z x
      · simp only [insSorted, if_pos hz, List.mem_cons, ih]
        try tauto
      · simp only [insSorted, if_neg hz, List.mem_cons]
        try tauto

theorem mem_sortStr (y : String) : ∀ l : List String, y ∈ sortStr l ↔ y ∈ l := by
  intro l
  induction l with
  | nil => simp [sortStr]
  | cons z zs ih =>
      simp only [sortStr, List.foldr_cons] at ih ⊢
      rw [mem_insSorted, ih, List.mem_cons]

theorem mem_listImages (st : StoreState) (f : String) (h : f ∈ listImages st) :
    f ∈ st.images := by
  rw [listImages, mem_sortStr] at h
  exact (List.mem_filter.mp h).1

theorem exportYoloSet_copies_all (st : StoreState) (labels : List String) :
    ∀ fs copied lfs, exportYoloSet st labels fs = Except.ok (copied, lfs) →
      (∀ f ∈ fs, f ∈ st.images) → copied = fs := by
  intro fs
  induction fs with
  | nil =>
      intro copied lfs h _
      simp only [exportYoloSet, Except.ok.injEq, Prod.mk.injEq] at h
      exact h.1.symm
  | cons f fs' ih =>
      intro copied lfs h hall
      have hmem : f ∈ st.images := hall f (List.mem_cons_self f fs')
      have hpath : getImagePath st f = some f := by
        simp [getImagePath, hmem]
      simp only [exportYoloSet, exportYoloImage, hpath] at h
      cases hg : getAnnotations st f with
      | error e => rw [hg] at h; simp at h
      | ok anns =>
          rw [hg] at h
          simp only at h
          cases hr : exportYoloSet st labels fs' with
          | error e => rw [hr] at h; simp at h
          | ok pr =>
              rw [hr] at h
              simp only [Except.ok.injEq, Prod.mk.injEq] at h
              have := ih pr.1 pr.2 (by rw [hr]) (fun g hg' => hall g (List.mem_cons_of_mem f hg'))
              rw [← h.1, this]

/-- C2: the YOLO split of this code base is a deterministic function of the
store state and the split fraction alone: the train bucket is always the
prefix of the sorted image listing of length `int(n * train_split)` and the
val bucket the matching suffix.  `export_yolo` accepts no shuffle or seed
parameter, so no seeded permutation is ever applied (the spec's
`shuffle=True, seed=...` calls do not exist in this signature). -/
theorem c2_yolo_split_sorted_prefix (st : StoreState) (ts : ℚ) (outAbs : String)
    (out : YoloOut) (h : exportYolo st ts outAbs = Except.ok out) :
    out.trainFiles = (listImages st).take
      (pySliceIdx (listImages st).length (ratTrunc (((listImages st).length : ℚ) * ts))) ∧
    out.valFiles = (listImages st).drop
      (pySliceIdx (listImages st).length (ratTrunc (((listImages st).length : ℚ) * ts))) := by
  unfold exportYolo at h
  cases hl : getAllLabels st with
  | error e => rw [hl] at h; simp at h
  | ok labels =>
      rw [hl] at h
      simp only at h
      cases htr : exportYoloSet st labels ((listImages st).take
          (pySliceIdx (listImages st).length (ratTrunc (((listImages st).length : ℚ) * ts)))) with
      | error e => rw [htr] at h; simp at h
      | ok prtr =>
          rw [htr] at h
          simp only at h
          cases hva : exportYoloSet st labels ((listImages st).drop
              (pySliceIdx (listImages st).length (ratTrunc (((listImages st).length : ℚ) * ts)))) with
          | error e => rw [hva] at h; simp at h
          | ok prva =>
              rw [hva] at h
              simp only [Except.ok.injEq] at h
              have htrain := exportYoloSet_copies_all st labels _ prtr.1 prtr.2
                (by rw [htr]) (fun g hg => mem_listImages st g (List.mem_of_mem_take hg))
              have hval := exportYoloSet_copies_all st labels _ prva.1 prva.2
                (by rw [hva]) (fun g hg => mem_listImages st g (List.mem_of_mem_drop hg))
              constructor
              · rw [← h]
                exact htrain
              · rw [← h]
                exact hval

/-- C2 witness: a concrete export (two listed images, split 0.7) lands on
the sorted prefix/suffix split. -/
theorem c2_yolo_split_sorted_prefix_witness :
    exportYolo missingState (7/10) "/o" = Except.ok
      { trainFiles := ["good.png"]
        valFiles := ["orphan.png"]
        trainLabelFiles := [("good", [(0, 1/2, 1/2, 1/5, 1/5)])]
        valLabelFiles := [("orphan", [])]
        yamlLines := createYoloYaml "/o" ["product"] } ∧
    ["good.png"] = (listImages missingState).take
      (pySliceIdx (listImages missingState).length
        (ratTrunc (((listImages missingState).length : ℚ) * (7/10)))) ∧
    ["orphan.png"] = (listImages missingState).drop
      (pySliceIdx (listImages missingState).length
        (ratTrunc (((listImages missingState).length : ℚ) * (7/10)))) := by
  have hexp : exportYolo missingState (7/10) "/o" = Except.ok
      { trainFiles := ["good.png"]
        valFiles := ["orphan.png"]
        trainLabelFiles := [("good", [(0, 1/2, 1/2, 1/5, 1/5)])]
        valLabelFiles := [("orphan", [])]
        yamlLines := createYoloYaml "/o" ["product"] } := by
    norm_num +decide [exportYolo, missingState, doneMeta, sampleBBox, getAllLabels,
      collectLabels, listImages, sortStr, insSorted, strLtB, charListLt, isImageFile,
      allowedExts, lowerStr, extOf, splitExt, idxOfChar, stemOf, sortedDedup,
      insSortedDedup, getAnnotations, loadMetadata, alookup, encodeMetadata,
      decodeMetadata, encodeImageInfo, decodeImageInfo, encodeAnnot, decodeAnnot,
      decodeAnnList, encodeBoundingBox, decodeBoundingBox, jfield, decodeStr,
      decodeQ01, decodeNat, decodeInt, exportYoloSet, exportYoloImage, getImagePath,
      idxOf?, pySliceIdx, ratTrunc]
  obtain ⟨h1, h2⟩ := c2_yolo_split_sorted_prefix missingState (7/10) "/o" _ hexp
  exact ⟨hexp, h1, h2⟩

/-- C1: this code base's `export_yolo` applies no done-filter: with five
annotated images of which only the first three are marked done, a full
export (train_split = 1) still copies all five images into the train
bucket, including the two images never marked done. -/
theorem c1_yolo_ignores_done_flag :
    (exportYolo doneFilterState 1 "/out").toOption.map
      (fun o => (o.trainFiles, o.valFiles)) =
      some (["image_000.png", "image_001.png", "image_002.png",
        "image_003.png", "image_004.png"], []) ∧
    getAllDoneStatus doneFilterState = Except.ok
      [("image_000.png", true), ("image_001.png", true), ("image_002.png", true),
        ("image_003.png", false), ("image_004.png", false)] := by
  constructor
  · norm_num +decide [exportYolo, doneFilterState, doneMeta, sampleBBox, getAllLabels,
      collectLabels, listImages, sortStr, insSorted, strLtB, charListLt, isImageFile,
      allowedExts, lowerStr, extOf, splitExt, idxOfChar, stemOf, sortedDedup,
      insSortedDedup, getAnnotations, loadMetadata, alookup, encodeMetadata,
      decodeMetadata, encodeImageInfo, decodeImageInfo, encodeAnnot, decodeAnnot,
      decodeAnnList, encodeBoundingBox, decodeBoundingBox, jfield, decodeStr,
      decodeQ01, decodeNat, decodeInt, exportYoloSet, exportYoloImage, getImagePath,
      idxOf?, pySliceIdx, ratTrunc]
  · norm_num +decide [getAllDoneStatus, doneStatusScan, doneFilterState, doneMeta,
      sampleBBox, loadAnnFile, encodeMetadata, decodeMetadata, encodeImageInfo,
      decodeImageInfo, encodeAnnot, decodeAnnot, decodeAnnList, encodeBoundingBox,
      decodeBoundingBox, jfield, decodeStr, decodeQ01, decodeNat, decodeInt]

/-- C4: the `data.yaml` written by this code base's `export_yolo` lists the
absolute output directory in its `path` entry (never the relative `.`),
while `train`/`val` subpaths, `nc` (the number of distinct labels) and the
sorted-index names block match the spec. -/
theorem c4_yaml_absolute_path :
    (exportYolo yamlState (4/5) "/abs/out").toOption.map YoloOut.yamlLines =
      some ["path: /abs/out", "train: train/images", "val: val/images", "",
        "nc: 2", "names:", "  0: apple", "  1: banana"] ∧
    ¬ ("path: ." ∈ ["path: /abs/out", "train: train/images", "val: val/images", "",
        "nc: 2", "names:", "  0: apple", "  1: banana"]) := by
  constructor
  · norm_num +decide [exportYolo, yamlState, yamlMeta, sampleBBox, getAllLabels,
      collectLabels, listImages, sortStr, insSorted, strLtB, charListLt, isImageFile,
      allowedExts, lowerStr, extOf, splitExt, idxOfChar, stemOf, sortedDedup,
      insSortedDedup, getAnnotations, loadMetadata, alookup, encodeMetadata,
      decodeMetadata, encodeImageInfo, decodeImageInfo, encodeAnnot, decodeAnnot,
      decodeAnnList, encodeBoundingBox, decodeBoundingBox, jfield, decodeStr,
      decodeQ01, decodeNat, decodeInt, exportYoloSet, exportYoloImage, getImagePath,
      idxOf?, pySliceIdx, ratTrunc, createYoloYaml, List.enum, List.enumFrom, Nat.repr,
      Nat.toDigits, Nat.toDigitsCore]
  · decide

/-! ### C5: coordinate conversion and clamping -/

/-- C5: for a single-image store, COCO emits the unclamped corner geometry
`x_min=(x−w/2)·W, y_min=(y−h/2)·H` with pixel width/height and
`area = width_px · height_px`; Pascal VOC and CSV clamp the truncated
corners to `[0, W] × [0, H]`; CreateML emits rounded center-based absolute
pixels. -/
theorem c5_coordinate_conversion (name : String) (w h : ℤ) (a : Annot)
    (himg : isImageFile name = true) (hv : BBoxInRange a.bbox) :
    exportCoco (oneImgState name w h a) = Except.ok
      { images := [{ id := 0, file_name := name, width := w, height := h }]
        annotations := [{ id := 1, image_id := 0, category_id := 0, bbox := [(a.bbox.x - a.bbox.width / 2) * (w : ℚ), (a.bbox.y - a.bbox.height / 2) * (h : ℚ), a.bbox.width * (w : ℚ), a.bbox.height * (h : ℚ)], area := a.bbox.width * (w : ℚ) * (a.bbox.height * (h : ℚ)), iscrowd := 0 }]
        categories := [(0, a.label, "product")] } ∧
    exportPascalVoc (oneImgState name w h a) = Except.ok
      [{ filename := name
         width := w
         height := h
         objects := [{ name := a.label, xmin := max 0 (ratTrunc ((a.bbox.x - a.bbox.width / 2) * (w : ℚ))), ymin := max 0 (ratTrunc ((a.bbox.y - a.bbox.height / 2) * (h : ℚ))), xmax := min w (ratTrunc ((a.bbox.x + a.bbox.width / 2) * (w : ℚ))), ymax := min h (ratTrunc ((a.bbox.y + a.bbox.height / 2) * (h : ℚ))) }] }] ∧
    exportCsv (oneImgState name w h a) = Except.ok
      [{ filename := name, label := a.label, x_min := max 0 (ratTrunc ((a.bbox.x - a.bbox.width / 2) * (w : ℚ))), y_min := max 0 (ratTrunc ((a.bbox.y - a.bbox.height / 2) * (h : ℚ))), x_max := min w (ratTrunc ((a.bbox.x + a.bbox.width / 2) * (w : ℚ))), y_max := min h (ratTrunc ((a.bbox.y + a.bbox.height / 2) * (h : ℚ))), image_width := w, image_height := h }] ∧
    exportCreateML (oneImgState name w h a) = Except.ok
      [{ image := name
         annotations := [{ label := a.label, x := round2 (a.bbox.x * (w : ℚ)), y := round2 (a.bbox.y * (h : ℚ)), width := round2 (a.bbox.width * (w : ℚ)), height := round2 (a.bbox.height * (h : ℚ)) }] }] := by
  have hm : MetaValid
      { image := { filename := name, width := w, height := h }
        annotations := [a]
        done := false } := by
    intro x hx
    rw [List.mem_singleton.mp hx]
    exact hv
  have hload : loadMetadata (oneImgState name w h a) name = Except.ok (some
      { image := { filename := name, width := w, height := h }
        annotations := [a]
        done := false }) := by
    simp [oneImgState, loadMetadata, alookup, decode_encode_metadata _ hm]
  have hli : listImages (oneImgState name w h a) = [name] := by
    simp [listImages, oneImgState, sortStr, insSorted, List.filter, himg]
  have hga : getAnnotations (oneImgState name w h a) name = Except.ok [a] := by
    simp [getAnnotations, hload]
  have hlabels : getAllLabels (oneImgState name w h a) = Except.ok [a.label] := by
    simp [getAllLabels, hli, collectLabels, hga, sortedDedup, insSortedDedup]
  have hpath : getImagePath (oneImgState name w h a) name = some name := by
    simp [getImagePath, oneImgState]
  refine ⟨?_, ?_, ?_, ?_⟩
  · simp [exportCoco, hlabels, hli, cocoScan, hga, hload, List.enum, List.enumFrom,
      pyIndex, idxOf?]
  · simp [exportPascalVoc, hli, vocScan, hga, hload, hpath]
  · simp [exportCsv, hli, csvScan, hga, hload]
  · simp [exportCreateML, hli, cmScan, hga, hload]

/-- C5 witness: the box (0.5, 0.5, 0.2, 0.2) on a 100×100 image yields
COCO bbox [40, 40, 20, 20] with area 400, VOC/CSV corners (40, 40, 60, 60)
and CreateML center (50, 50, 20, 20). -/
theorem c5_coordinate_conversion_witness :
    exportCoco (oneImgState "test.png" 100 100 testAnn) = Except.ok
      { images := [{ id := 0, file_name := "test.png", width := 100, height := 100 }]
        annotations := [{ id := 1, image_id := 0, category_id := 0, bbox := [40, 40, 20, 20], area := 400, iscrowd := 0 }]
        categories := [(0, "product", "product")] } ∧
    exportPascalVoc (oneImgState "test.png" 100 100 testAnn) = Except.ok
      [{ filename := "test.png", width := 100, height := 100, objects := [{ name := "product", xmin := 40, ymin := 40, xmax := 60, ymax := 60 }] }] ∧
    exportCsv (oneImgState "test.png" 100 100 testAnn) = Except.ok
      [{ filename := "test.png", label := "product", x_min := 40, y_min := 40, x_max := 60, y_max := 60, image_width := 100, image_height := 100 }] ∧
    exportCreateML (oneImgState "test.png" 100 100 testAnn) = Except.ok
      [{ image := "test.png", annotations := [{ label := "product", x := 50, y := 50, width := 20, height := 20 }] }] := by
  obtain ⟨h1, h2, h3, h4⟩ := c5_coordinate_conversion "test.png" 100 100 testAnn
    (by decide) (by norm_num [BBoxInRange, testAnn, sampleBBox])
  refine ⟨?_, ?_, ?_, ?_⟩
  · rw [h1]
    norm_num [testAnn, sampleBBox]
  · rw [h2]
    norm_num [testAnn, sampleBBox, ratTrunc]
  · rw [h3]
    norm_num [testAnn, sampleBBox, ratTrunc]
  · rw [h4]
    norm_num [testAnn, sampleBBox, round2, rhalfEven]

/-! ### C3: behavior of bulk scans on missing and on corrupt metadata -/

theorem WF_loadMetadata (st : StoreState) (hwf : WFStore st) (f : String) :
    ∃ r, loadMetadata st f = Except.ok r := by
  cases halk : alookup st.annFiles (stemOf f) with
  | none => exact ⟨none, by simp [loadMetadata, halk]⟩
  | some c =>
      obtain ⟨m, hc, hv⟩ := hwf _ (alookup_mem _ _ _ halk)
      simp only at hc
      subst hc
      exact ⟨some m, by simp [loadMetadata, halk, decode_encode_metadata m hv]⟩

theorem WF_getAnnotations (st : StoreState) (hwf : WFStore st) (f : String) :
    ∃ r, getAnnotations st f = Except.ok r := by
  obtain ⟨r, hr⟩ := WF_loadMetadata st hwf f
  cases r with
  | none => exact ⟨[], by simp [getAnnotations, hr]⟩
  | some m => exact ⟨m.annotations, by simp [getAnnotations, hr]⟩

theorem WF_collectLabels (st : StoreState) (hwf : WFStore st) :
    ∀ fs, ∃ r, collectLabels st fs = Except.ok r := by
  intro fs
  induction fs with
  | nil => exact ⟨[], rfl⟩
  | cons f fs' ih =>
      obtain ⟨anns, ha⟩ := WF_getAnnotations st hwf f
      obtain ⟨rest, hr⟩ := ih
      exact ⟨anns.map (fun a => a.label) ++ rest, by simp [collectLabels, ha, hr]⟩

theorem WF_getAllLabels (st : StoreState) (hwf : WFStore st) :
    ∃ r, getAllLabels st = Except.ok r := by
  obtain ⟨ls, hl⟩ := WF_collectLabels st hwf (listImages st)
  exact ⟨sortedDedup ls, by simp [getAllLabels, hl]⟩

theorem WF_exportYoloSet (st : StoreState) (hwf : WFStore st) (labels : List String) :
    ∀ fs, ∃ r, exportYoloSet st labels fs = Except.ok r := by
  intro fs
  induction fs with
  | nil => exact ⟨([], []), rfl⟩
  | cons f fs' ih =>
      obtain ⟨pr, hpr⟩ := ih
      cases hpath : getImagePath st f with
      | none => exact ⟨pr, by simp [exportYoloSet, exportYoloImage, hpath, hpr]⟩
      | some p =>
          obtain ⟨anns, ha⟩ := WF_getAnnotations st hwf f
          refine ⟨(f :: pr.1, (stemOf f, anns.map (fun a => ((idxOf? labels a.label).getD a.class_id, a.bbox.x, a.bbox.y, a.bbox.width, a.bbox.height))) :: pr.2), ?_⟩
          simp [exportYoloSet, exportYoloImage, hpath, ha, hpr]

theorem WF_exportYolo (st : StoreState) (hwf : WFStore st) (ts : ℚ) (outAbs : String) :
    ∃ r, exportYolo st ts outAbs = Except.ok r := by
  obtain ⟨labels, hl⟩ := WF_getAllLabels st hwf
  obtain ⟨prt, ht⟩ := WF_exportYoloSet st hwf labels ((listImages st).take
    (pySliceIdx (listImages st).length (ratTrunc (((listImages st).length : ℚ) * ts))))
  obtain ⟨prv, hv⟩ := WF_exportYoloSet st hwf labels ((listImages st).drop
    (pySliceIdx (listImages st).length (ratTrunc (((listImages st).length : ℚ) * ts))))
  refine ⟨{ trainFiles := prt.1, valFiles := prv.1, trainLabelFiles := prt.2, valLabelFiles := prv.2, yamlLines := createYoloYaml outAbs labels }, ?_⟩
  simp [exportYolo, hl, ht, hv]

theorem WF_cocoScan (st : StoreState) (hwf : WFStore st) (labels : List String) :
    ∀ fs n, ∃ r, cocoScan st labels n fs = Except.ok r := by
  intro fs
  induction fs with
  | nil => exact fun n => ⟨([], []), rfl⟩
  | cons p fs' ih =>
      intro n
      obtain ⟨imgId, f⟩ := p
      obtain ⟨anns, ha⟩ := WF_getAnnotations st hwf f
      obtain ⟨mo, hm⟩ := WF_loadMetadata st hwf f
      cases mo with
      | none =>
          obtain ⟨pr, hpr⟩ := ih n
          exact ⟨pr, by simp [cocoScan, ha, hm, hpr]⟩
      | some md =>
          obtain ⟨pr, hpr⟩ := ih (n + anns.length)
          refine ⟨({ id := imgId, file_name := f, width := md.image.width, height := md.image.height } :: pr.1, (anns.enum.map (fun q => { id := n + q.1, image_id := imgId, category_id := pyIndex labels (q.2).label, bbox := [((q.2).bbox.x - (q.2).bbox.width / 2) * (md.image.width : ℚ), ((q.2).bbox.y - (q.2).bbox.height / 2) * (md.image.height : ℚ), (q.2).bbox.width * (md.image.width : ℚ), (q.2).bbox.height * (md.image.height : ℚ)], area := (q.2).bbox.width * (md.image.width : ℚ) * ((q.2).bbox.height * (md.image.height : ℚ)), iscrowd := 0 })) ++ pr.2), ?_⟩
          simp [cocoScan, ha, hm, hpr]

theorem WF_exportCoco (st : StoreState) (hwf : WFStore st) :
    ∃ r, exportCoco st = Except.ok r := by
  obtain ⟨labels, hl⟩ := WF_getAllLabels st hwf
  obtain ⟨pr, hpr⟩ := WF_cocoScan st hwf labels (listImages st).enum 1
  refine ⟨{ images := pr.1, annotations := pr.2, categories := labels.enum.map (fun p => (p.1, p.2, "product")) }, ?_⟩
  simp [exportCoco, hl, hpr]

theorem WF_vocScan (st : StoreState) (hwf : WFStore st) :
    ∀ fs, ∃ r, vocScan st fs = Except.ok r := by
  intro fs
  induction fs with
  | nil => exact ⟨[], rfl⟩
  | cons f fs' ih =>
      obtain ⟨anns, ha⟩ := WF_getAnnotations st hwf f
      obtain ⟨mo, hm⟩ := WF_loadMetadata st hwf f
      obtain ⟨docs, hd⟩ := ih
      cases mo with
      | none => exact ⟨docs, by simp [vocScan, ha, hm, hd]⟩
      | some md =>
          cases hpath : getImagePath st f with
          | none => exact ⟨docs, by simp [vocScan, ha, hm, hpath, hd]⟩
          | some p =>
              refine ⟨{ filename := f, width := md.image.width, height := md.image.height, objects := anns.map (fun a => { name := a.label, xmin := max 0 (ratTrunc ((a.bbox.x - a.bbox.width / 2) * (md.image.width : ℚ))), ymin := max 0 (ratTrunc ((a.bbox.y - a.bbox.height / 2) * (md.image.height : ℚ))), xmax := min md.image.width (ratTrunc ((a.bbox.x + a.bbox.width / 2) * (md.image.width : ℚ))), ymax := min md.image.height (ratTrunc ((a.bbox.y + a.bbox.height / 2) * (md.image.height : ℚ))) }) } :: docs, ?_⟩
              simp [vocScan, ha, hm, hpath, hd]

theorem WF_cmScan (st : StoreState) (hwf : WFStore st) :
    ∀ fs, ∃ r, cmScan st fs = Except.ok r := by
  intro fs
  induction fs with
  | nil => exact ⟨[], rfl⟩
  | cons f fs' ih =>
      obtain ⟨anns, ha⟩ := WF_getAnnotations st hwf f
      obtain ⟨mo, hm⟩ := WF_loadMetadata st hwf f
      obtain ⟨es, he⟩ := ih
      cases mo with
      | none => exact ⟨es, by simp [cmScan, ha, hm, he]⟩
      | some md =>
          refine ⟨{ image := f, annotations := anns.map (fun a => { label := a.label, x := round2 (a.bbox.x * (md.image.width : ℚ)), y := round2 (a.bbox.y * (md.image.height : ℚ)), width := round2 (a.bbox.width * (md.image.width : ℚ)), height := round2 (a.bbox.height * (md.image.height : ℚ)) }) } :: es, ?_⟩
          simp [cmScan, ha, hm, he]

theorem WF_csvScan (st : StoreState) (hwf : WFStore st) :
    ∀ fs, ∃ r, csvScan st fs = Except.ok r := by
  intro fs
  induction fs with
  | nil => exact ⟨[], rfl⟩
  | cons f fs' ih =>
      obtain ⟨anns, ha⟩ := WF_getAnnotations st hwf f
      obtain ⟨mo, hm⟩ := WF_loadMetadata st hwf f
      obtain ⟨rows, hrw⟩ := ih
      cases mo with
      | none => exact ⟨rows, by simp [csvScan, ha, hm, hrw]⟩
      | some md =>
          refine ⟨anns.map (fun a => { filename := f, label := a.label, x_min := max 0 (ratTrunc ((a.bbox.x - a.bbox.width / 2) * (md.image.width : ℚ))), y_min := max 0 (ratTrunc ((a.bbox.y - a.bbox.height / 2) * (md.image.height : ℚ))), x_max := min md.image.width (ratTrunc ((a.bbox.x + a.bbox.width / 2) * (md.image.width : ℚ))), y_max := min md.image.height (ratTrunc ((a.bbox.y + a.bbox.height / 2) * (md.image.height : ℚ))), image_width := md.image.width, image_height := md.image.height }) ++ rows, ?_⟩
          simp [csvScan, ha, hm, hrw]

theorem WF_projInfoScan :
    ∀ l : List (String × FileContent),
      (∀ p ∈ l, ∃ m, p.2 = FileContent.json (encodeMetadata m) ∧ MetaValid m) →
      ∃ r, projInfoScan l = Except.ok r := by
  intro l
  induction l with
  | nil => exact fun _ => ⟨([], 0, 0, 0, 0), rfl⟩
  | cons p rest ih =>
      intro h
      obtain ⟨m, hc, hv⟩ := h p (List.mem_cons_self p rest)
      obtain ⟨r, hr⟩ := ih (fun q hq => h q (List.mem_cons_of_mem p hq))
      obtain ⟨ls, ic, ac, aic, dic⟩ := r
      obtain ⟨k, c⟩ := p
      simp only at hc
      refine ⟨(m.annotations.map (fun a => a.label) ++ ls, ic + 1, ac + m.annotations.length, (if m.annotations.length > 0 then aic + 1 else aic), (if m.done then dic + 1 else dic)), ?_⟩
      simp [projInfoScan, hc, loadAnnFile, decode_encode_metadata m hv, hr]

theorem WF_doneStatusScan :
    ∀ l : List (String × FileContent),
      (∀ p ∈ l, ∃ m, p.2 = FileContent.json (encodeMetadata m) ∧ MetaValid m) →
      ∃ r, doneStatusScan l = Except.ok r := by
  intro l
  induction l with
  | nil => exact fun _ => ⟨[], rfl⟩
  | cons p rest ih =>
      intro h
      obtain ⟨m, hc, hv⟩ := h p (List.mem_cons_self p rest)
      obtain ⟨r, hr⟩ := ih (fun q hq => h q (List.mem_cons_of_mem p hq))
      obtain ⟨k, c⟩ := p
      simp only at hc
      exact ⟨(m.image.filename, m.done) :: r, by simp [doneStatusScan, hc, loadAnnFile, decode_encode_metadata m hv, hr]⟩

theorem countAnnScan_ok :
    ∀ l : List (String × FileContent),
      (∀ p ∈ l, ∃ m, p.2 = FileContent.json (encodeMetadata m)) →
      ∃ r, countAnnScan l = Except.ok r := by
  intro l
  induction l with
  | nil => exact fun _ => ⟨0, rfl⟩
  | cons p rest ih =>
      intro h
      obtain ⟨m, hc⟩ := h p (List.mem_cons_self p rest)
      obtain ⟨r, hr⟩ := ih (fun q hq => h q (List.mem_cons_of_mem p hq))
      obtain ⟨k, c⟩ := p
      simp only at hc
      exact ⟨m.annotations.length + r, by simp [countAnnScan, hc, annCountOfJson, encodeMetadata, jfield, hr]⟩

theorem cocoScan_loaded (st : StoreState) (labels : List String) :
    ∀ fs n imgs anns, cocoScan st labels n fs = Except.ok (imgs, anns) →
      ∀ i ∈ imgs, ∃ md, loadMetadata st i.file_name = Except.ok (some md) := by
  intro fs
  induction fs with
  | nil =>
      intro n imgs anns h i hi
      simp only [cocoScan, Except.ok.injEq, Prod.mk.injEq] at h
      rw [← h.1] at hi
      simp at hi
  | cons p fs' ih =>
      intro n imgs anns h i hi
      obtain ⟨imgId, f⟩ := p
      cases ha : getAnnotations st f with
      | error e => rw [cocoScan, ha] at h; simp at h
      | ok anns0 =>
          rw [cocoScan, ha] at h
          simp only at h
          cases hm : loadMetadata st f with
          | error e => rw [hm] at h; simp at h
          | ok mo =>
              rw [hm] at h
              cases mo with
              | none => exact ih n imgs anns h i hi
              | some md =>
                  cases hr : cocoScan st labels (n + anns0.length) fs' with
                  | error e => rw [hr] at h; simp at h
                  | ok pr =>
                      rw [hr] at h
                      simp only [Except.ok.injEq, Prod.mk.injEq] at h
                      rw [← h.1] at hi
                      rcases List.mem_cons.mp hi with hi | hi
                      · exact ⟨md, by rw [hi]; exact hm⟩
                      · exact ih (n + anns0.length) pr.1 pr.2 (by rw [hr]) i hi

theorem vocScan_loaded (st : StoreState) :
    ∀ fs docs, vocScan st fs = Except.ok docs →
      ∀ d ∈ docs, ∃ md, loadMetadata st d.filename = Except.ok (some md) := by
  intro fs
  induction fs with
  | nil =>
      intro docs h d hd
      simp only [vocScan, Except.ok.injEq] at h
      rw [← h] at hd
      simp at hd
  | cons f fs' ih =>
      intro docs h d hd
      cases ha : getAnnotations st f with
      | error e => rw [vocScan, ha] at h; simp at h
      | ok anns0 =>
          rw [vocScan, ha] at h
          simp only at h
          cases hm : loadMetadata st f with
          | error e => rw [hm] at h; simp at h
          | ok mo =>
              rw [hm] at h
              cases mo with
              | none => exact ih docs h d hd
              | some md =>
                  cases hpath : getImagePath st f with
                  | none =>
                      rw [hpath] at h
                      exact ih docs h d hd
                  | some p =>
                      rw [hpath] at h
                      cases hr : vocScan st fs' with
                      | error e => rw [hr] at h; simp at h
                      | ok docs' =>
                          rw [hr] at h
                          simp only [Except.ok.injEq] at h
                          rw [← h] at hd
                          rcases List.mem_cons.mp hd with hd | hd
                          · exact ⟨md, by rw [hd]; exact hm⟩
                          · exact ih docs' (by rw [hr]) d hd

theorem cmScan_loaded (st : StoreState) :
    ∀ fs es, cmScan st fs = Except.ok es →
      ∀ e ∈ es, ∃ md, loadMetadata st e.image = Except.ok (some md) := by
  intro fs
  induction fs with
  | nil =>
      intro es h e he
      simp only [cmScan, Except.ok.injEq] at h
      rw [← h] at he
      simp at he
  | cons f fs' ih =>
      intro es h e he
      cases ha : getAnnotations st f with
      | error e0 => rw [cmScan, ha] at h; simp at h
      | ok anns0 =>
          rw [cmScan, ha] at h
          simp only at h
          cases hm : loadMetadata st f with
          | error e0 => rw [hm] at h; simp at h
          | ok mo =>
              rw [hm] at h
              cases mo with
              | none => exact ih es h e he
              | some md =>
                  cases hr : cmScan st fs' with
                  | error e0 => rw [hr] at h; simp at h
                  | ok es' =>
                      rw [hr] at h
                      simp only [Except.ok.injEq] at h
                      rw [← h] at he
                      rcases List.mem_cons.mp he with he | he
                      · exact ⟨md, by rw [he]; exact hm⟩
                      · exact ih es' (by rw [hr]) e he

theorem csvScan_loaded (st : StoreState) :
    ∀ fs rows, csvScan st fs = Except.ok rows →
      ∀ r ∈ rows, ∃ md, loadMetadata st r.filename = Except.ok (some md) := by
  intro fs
  induction fs with
  | nil =>
      intro rows h r hr
      simp only [csvScan, Except.ok.injEq] at h
      rw [← h] at hr
      simp at hr
  | cons f fs' ih =>
      intro rows h r hr
      cases ha : getAnnotations st f with
      | error e0 => rw [csvScan, ha] at h; simp at h
      | ok anns0 =>
          rw [csvScan, ha] at h
          simp only at h
          cases hm : loadMetadata st f with
          | error e0 => rw [hm] at h; simp at h
          | ok mo =>
              rw [hm] at h
              cases mo with
              | none => exact ih rows h r hr
              | some md =>
                  cases hrec : csvScan st fs' with
                  | error e0 => rw [hrec] at h; simp at h
                  | ok rows' =>
                      rw [hrec] at h
                      simp only [Except.ok.injEq] at h
                      rw [← h] at hr
                      rcases List.mem_append.mp hr with hr | hr
                      · obtain ⟨a, -, heq⟩ := List.mem_map.mp hr
                        exact ⟨md, by rw [← heq]; exact hm⟩
                      · exact ih rows' (by rw [hrec]) r hr

/-- C3 (amended): during every bulk scan, a metadata record that is MISSING
is skipped as a single entry and the scan completes; in a store whose
existing metadata files are all loadable, every export and aggregate scan
succeeds, and (for project stat counting) the same holds for a project
whose annotation files are saved records.  (A corrupt file, by contrast,
aborts the scan: see the counterexample.) -/
theorem c3_missing_skipped (st : StoreState) (hwf : WFStore st) (ts : ℚ)
    (outAbs : String) (ps : ProjectsState) (pid : String) :
    (∃ r, exportYolo st ts outAbs = Except.ok r) ∧
    (∃ r, exportCoco st = Except.ok r) ∧
    (∃ r, exportPascalVoc st = Except.ok r) ∧
    (∃ r, exportCreateML st = Except.ok r) ∧
    (∃ r, exportCsv st = Except.ok r) ∧
    (∃ r, getProjectInfo st = Except.ok r) ∧
    (∃ r, getAllDoneStatus st = Except.ok r) ∧
    (∀ d, alookup ps pid = some d →
      (∀ p ∈ d.annFiles, ∃ m, p.2 = FileContent.json (encodeMetadata m)) →
      ∃ r, countProjectStats ps pid = Except.ok r) ∧
    (∀ f, loadMetadata st f = Except.ok none →
      (∀ out, exportCoco st = Except.ok out → ∀ i ∈ out.images, i.file_name ≠ f) ∧
      (∀ docs, exportPascalVoc st = Except.ok docs → ∀ d ∈ docs, d.filename ≠ f) ∧
      (∀ es, exportCreateML st = Except.ok es → ∀ e ∈ es, e.image ≠ f) ∧
      (∀ rows, exportCsv st = Except.ok rows → ∀ r ∈ rows, r.filename ≠ f)) := by
  refine ⟨WF_exportYolo st hwf ts outAbs, WF_exportCoco st hwf, ?_, ?_, ?_, ?_, ?_, ?_, ?_⟩
  · exact WF_vocScan st hwf (listImages st)
  · exact WF_cmScan st hwf (listImages st)
  · exact WF_csvScan st hwf (listImages st)
  · obtain ⟨r, hr⟩ := WF_projInfoScan st.annFiles hwf
    obtain ⟨ls, ic, ac, aic, dic⟩ := r
    exact ⟨{ labels := sortedDedup ls, image_count := ic, annotation_count := ac, annotated_image_count := aic, done_image_count := dic }, by simp [getProjectInfo, hr]⟩
  · exact WF_doneStatusScan st.annFiles hwf
  · intro d halk hfiles
    obtain ⟨ac, hac⟩ := countAnnScan_ok d.annFiles hfiles
    exact ⟨((d.images.filter isImageFile).length, ac), by simp [countProjectStats, halk, hac]⟩
  · intro f hf
    refine ⟨?_, ?_, ?_, ?_⟩
    · intro out hout i hi
      unfold exportCoco at hout
      cases hl : getAllLabels st with
      | error e => rw [hl] at hout; simp at hout
      | ok labels =>
          rw [hl] at hout
          simp only at hout
          cases hs : cocoScan st labels 1 (listImages st).enum with
          | error e => rw [hs] at hout; simp at hout
          | ok pr =>
              rw [hs] at hout
              simp only [Except.ok.injEq] at hout
              have hload := cocoScan_loaded st labels (listImages st).enum 1 pr.1 pr.2 (by rw [hs]) i (by rw [← hout] at hi; exact hi)
              obtain ⟨md, hmd⟩ := hload
              intro hc
              rw [hc, hf] at hmd
              simp at hmd
    · intro docs hdocs d hd
      obtain ⟨md, hmd⟩ := vocScan_loaded st (listImages st) docs hdocs d hd
      intro hc
      rw [hc, hf] at hmd
      simp at hmd
    · intro es hes e he
      obtain ⟨md, hmd⟩ := cmScan_loaded st (listImages st) es hes e he
      intro hc
      rw [hc, hf] at hmd
      simp at hmd
    · intro rows hrows r hr
      obtain ⟨md, hmd⟩ := csvScan_loaded st (listImages st) rows hrows r hr
      intro hc
      rw [hc, hf] at hmd
      simp at hmd

/-- C3 witness: in a store with one saved record and one image lacking any
metadata record, every export and aggregate scan completes, and the COCO
export excludes the record-less image. -/
theorem c3_missing_skipped_witness :
    WFStore missingState ∧
    loadMetadata missingState "orphan.png" = Except.ok none ∧
    (∃ r, exportYolo missingState (1/2) "/o" = Except.ok r) ∧
    (∃ r, exportCoco missingState = Except.ok r) ∧
    (∃ r, exportPascalVoc missingState = Except.ok r) ∧
    (∃ r, exportCreateML missingState = Except.ok r) ∧
    (∃ r, exportCsv missingState = Except.ok r) ∧
    (∃ r, getProjectInfo missingState = Except.ok r) ∧
    (∃ r, getAllDoneStatus missingState = Except.ok r) ∧
    (∃ r, countProjectStats wfProj "q" = Except.ok r) ∧
    (∀ out, exportCoco missingState = Except.ok out →
      ∀ i ∈ out.images, i.file_name ≠ "orphan.png") := by
  have hwf : WFStore missingState := by
    intro p hp
    simp only [missingState, List.mem_singleton] at hp
    subst hp
    exact ⟨doneMeta "good.png" true, rfl,
      by norm_num [MetaValid, doneMeta, BBoxInRange, sampleBBox]⟩
  have horphan : loadMetadata missingState "orphan.png" = Except.ok none := by
    norm_num +decide [loadMetadata, missingState, alookup, stemOf, splitExt, idxOfChar]
  obtain ⟨h1, h2, h3, h4, h5, h6, h7, h8, h9⟩ :=
    c3_missing_skipped missingState hwf (1/2) "/o" wfProj "q"
  refine ⟨hwf, horphan, h1, h2, h3, h4, h5, h6, h7, ?_,
    fun out hout => (h9 "orphan.png" horphan).1 out hout⟩
  refine h8 wfDir (by simp [wfProj, alookup]) ?_
  intro p hp
  simp only [wfDir, List.mem_singleton] at hp
  subst hp
  exact ⟨doneMeta "a.png" false, rfl⟩

/-- C3 counterexample: a single corrupt metadata file aborts every export,
every aggregate scan, and project stat counting with an error, rather than
being skipped. -/
theorem c3_corrupt_aborts :
    exportYolo corruptState (4/5) "/o" = Except.error () ∧
    exportCoco corruptState = Except.error () ∧
    exportPascalVoc corruptState = Except.error () ∧
    exportCreateML corruptState = Except.error () ∧
    exportCsv corruptState = Except.error () ∧
    getProjectInfo corruptState = Except.error () ∧
    getAllDoneStatus corruptState = Except.error () ∧
    countProjectStats corruptProjects "p1" = Except.error () ∧
    getProject corruptProjects "p1" = Except.error () ∧
    listProjects corruptProjects = Except.error () := by
  refine ⟨?_, ?_, ?_, ?_, ?_, ?_, ?_, ?_, ?_, ?_⟩ <;>
    norm_num +decide [exportYolo, exportCoco, exportPascalVoc, exportCreateML,
      exportCsv, getProjectInfo, getAllDoneStatus, projInfoScan, doneStatusScan,
      loadAnnFile, corruptState, doneMeta, sampleBBox, getAllLabels, collectLabels,
      listImages, sortStr, insSorted, strLtB, charListLt, isImageFile, allowedExts,
      lowerStr, extOf, splitExt, idxOfChar, stemOf, sortedDedup, insSortedDedup,
      getAnnotations, loadMetadata, alookup, encodeMetadata, decodeMetadata,
      encodeImageInfo, decodeImageInfo, encodeAnnot, decodeAnnot, decodeAnnList,
      encodeBoundingBox, decodeBoundingBox, jfield, decodeStr, decodeQ01, decodeNat,
      decodeInt, cocoScan, vocScan, cmScan, csvScan, exportYoloSet, exportYoloImage,
      getImagePath, List.enum, List.enumFrom, countProjectStats, countAnnScan,
      annCountOfJson, getProject, listProjects, listProjectsScan, loadProjectMeta,
      corruptProjects, sampleProject, encodeProject, decodeProject, sortProjDesc,
      insProjDesc, Rat.den_intCast, Rat.num_intCast, pySliceIdx, ratTrunc]

/-! ### C8: project counters are recomputed on every read -/

theorem decode_encode_project (p : Project) :
    decodeProject (encodeProject p) = some p := by
  simp +decide [encodeProject, decodeProject, jfield, decodeStr, decodeInt,
    Rat.den_intCast, Rat.num_intCast]

theorem listProjectsScan_counts (ps : ProjectsState) :
    ∀ dirs l, listProjectsScan ps dirs = Except.ok l →
      ∀ pr ∈ l, countProjectStats ps pr.id =
        Except.ok (pr.image_count.toNat, pr.annotation_count.toNat) := by
  intro dirs
  induction dirs with
  | nil =>
      intro l h pr hpr
      simp only [listProjectsScan, Except.ok.injEq] at h
      rw [← h] at hpr
      simp at hpr
  | cons q rest ih =>
      intro l h pr hpr
      obtain ⟨dirName, d⟩ := q
      cases hl : loadProjectMeta ps dirName with
      | error e => rw [listProjectsScan, hl] at h; simp at h
      | ok po =>
          rw [listProjectsScan, hl] at h
          cases po with
          | none => exact ih l h pr hpr
          | some p =>
              simp only at h
              cases hc : countProjectStats ps p.id with
              | error e => rw [hc] at h; simp at h
              | ok pr0 =>
                  rw [hc] at h
                  simp only at h
                  cases hr : listProjectsScan ps rest with
                  | error e => rw [hr] at h; simp at h
                  | ok l' =>
                      rw [hr] at h
                      simp only [Except.ok.injEq] at h
                      rw [← h] at hpr
                      rcases List.mem_cons.mp hpr with hpr | hpr
                      · obtain ⟨ic, ac⟩ := pr0
                        rw [hpr]
                        simpa using hc
                      · exact ih l' (by rw [hr]) pr hpr

theorem mem_insProjDesc (x y : Project) :
    ∀ l : List Project, y ∈ insProjDesc x l ↔ y = x ∨ y ∈ l := by
  intro l
  induction l with
  | nil => simp [insProjDesc]
  | cons z zs ih =>
      by_cases hz : strLtB x.last_opened z.last_opened
      · simp only [insProjDesc, if_pos hz, List.mem_cons, ih]
        try tauto
      · simp only [insProjDesc, if_neg hz, List.mem_cons]
        try tauto

theorem mem_sortProjDesc (y : Project) :
    ∀ l : List Project, y ∈ sortProjDesc l ↔ y ∈ l := by
  intro l
  induction l with
  | nil => simp [sortProjDesc]
  | cons z zs ih =>
      simp only [sortProjDesc, List.foldr_cons] at ih ⊢
      rw [mem_insProjDesc, ih, List.mem_cons]

/-- C8: a project's counters are never taken from the stored metadata:
`get_project` returns the persisted identity fields with `image_count`
recomputed as the number of allow-listed files under `images/` and
`annotation_count` as the sum over the `*.json` files of `annotations/`;
every project returned by `list_projects` likewise carries counters equal
to a fresh `_count_project_stats` of the current on-disk state. -/
theorem c8_counts_recomputed (ps : ProjectsState) :
    (∀ pid d p ac, alookup ps pid = some d →
      d.meta = some (FileContent.json (encodeProject p)) →
      countAnnScan d.annFiles = Except.ok ac →
      getProject ps pid = Except.ok (some { p with image_count := ((d.images.filter isImageFile).length : ℤ), annotation_count := (ac : ℤ) })) ∧
    (∀ l, listProjects ps = Except.ok l → ∀ pr ∈ l,
      countProjectStats ps pr.id = Except.ok (pr.image_count.toNat, pr.annotation_count.toNat)) := by
  constructor
  · intro pid d p ac halk hmeta hscan
    simp [getProject, loadProjectMeta, halk, hmeta, decode_encode_project,
      countProjectStats, hscan]
  · intro l h pr hpr
    unfold listProjects at h
    cases hs : listProjectsScan ps ps with
    | error e => rw [hs] at h; simp at h
    | ok l0 =>
        rw [hs] at h
        simp only [Except.ok.injEq] at h
        rw [← h] at hpr
        rw [mem_sortProjDesc] at hpr
        exact listProjectsScan_counts ps ps l0 hs pr hpr

/-- C8 witness: with stored counters (5, 7) drifted away from the real
contents (1 image, 3 annotations), both `get_project` and `list_projects`
report the recomputed values. -/
theorem c8_counts_recomputed_witness :
    getProject driftProjects "p1" = Except.ok (some driftProj) ∧
    listProjects driftProjects = Except.ok [driftProj] ∧
    countProjectStats driftProjects "p1" = Except.ok (1, 3) ∧
    sampleProject.image_count = 5 ∧ sampleProject.annotation_count = 7 := by
  have halk : alookup driftProjects "p1" = some driftDir := by
    simp [driftProjects, alookup]
  have hmeta : driftDir.meta = some (FileContent.json (encodeProject sampleProject)) := rfl
  have hscan : countAnnScan driftDir.annFiles = Except.ok 3 := by
    norm_num +decide [countAnnScan, driftDir, annCountOfJson, encodeMetadata,
      encodeImageInfo, encodeAnnot, encodeBoundingBox, doneMeta, sampleBBox, jfield]
  have h1 := (c8_counts_recomputed driftProjects).1 "p1" driftDir sampleProject 3
    halk hmeta hscan
  have hget : getProject driftProjects "p1" = Except.ok (some driftProj) := by
    rw [h1]
    norm_num +decide [driftDir, sampleProject, driftProj, isImageFile, allowedExts,
      lowerStr, extOf, splitExt, idxOfChar, List.filter]
  have hlist : listProjects driftProjects = Except.ok [driftProj] := by
    norm_num +decide [listProjects, listProjectsScan, driftProjects, driftDir,
      driftProj, sampleProject, loadProjectMeta, alookup, decodeProject,
      encodeProject, jfield, decodeStr, decodeInt, Rat.den_intCast, Rat.num_intCast,
      countProjectStats, countAnnScan, annCountOfJson, encodeMetadata,
      encodeImageInfo, encodeAnnot, encodeBoundingBox, doneMeta, sampleBBox,
      isImageFile, allowedExts, lowerStr, extOf, splitExt, idxOfChar, List.filter,
      sortProjDesc, insProjDesc]
  have hcount := (c8_counts_recomputed driftProjects).2 [driftProj] hlist driftProj
    (List.mem_singleton_self driftProj)
  refine ⟨hget, hlist, ?_, rfl, rfl⟩
  show countProjectStats driftProjects driftProj.id = Except.ok (1, 3)
  rw [hcount]
  norm_num [driftProj]
  try decide

end Bbannotate
